import Mathlib

/-!
# Permission map of the TURN client (`internal/client/permission.go`)

A shallow embedding of the permission object, the fingerprint function and the
permission map, followed by the properties proved about them.

Modelling conventions.

* The Go program is sequential here: the two mutexes and the atomic
  load/store of `st` are not represented; each method is one atomic step.
* `*permission` values are references into a heap of permission objects
  (`PermRef`), so that two map entries may alias the same object, as in Go.
  Every reference denotes an allocated object; `nil` receivers and `nil`
  pointers inside a `net.Addr` interface value are outside the embedding.
* A Go `map[string]*permission` is an association list with the usual
  lookup / assign / delete; the order of the list stands for the (unspecified)
  iteration order of the Go map, so results about `addrs` are stated up to
  permutation.
* The client, its transaction map and the allocation are not among the
  sources; the request layer is modelled from the specification, in a section
  of its own, and every definition of it says so.
-/

namespace Turn

/-! ## The part of Go's `net` package the code calls -/

/-- A Go `net.IP`: a byte slice. -/
abbrev IP := List (Fin 256)

/-- The digit table `hexDigit = "0123456789abcdef"` of package `net`. -/
def hexDigit (n : Nat) : Char :=
  "0123456789abcdef".toList.getD n '0'

/-- Go `hexString(b)`: two lower-case hexadecimal digits per byte. -/
def hexString : IP → List Char
  | [] => []
  | b :: bs => hexDigit (b.val / 16) :: hexDigit (b.val % 16) :: hexString bs

/-- Decimal digits of a number, most significant first (`fuel` bounds the
number of digits). -/
def decDigits : Nat → Nat → List Char
  | 0, _ => []
  | fuel + 1, n =>
    if n < 10 then [hexDigit n] else decDigits fuel (n / 10) ++ [hexDigit (n % 10)]

/-- Hexadecimal digits of a number without leading zeros, most significant
first (Go `appendHex`, which prints `0` for zero). -/
def hexDigits : Nat → Nat → List Char
  | 0, _ => []
  | fuel + 1, n =>
    if n < 16 then [hexDigit n] else hexDigits fuel (n / 16) ++ [hexDigit (n % 16)]

/-- Go `IP.To4`: the four-byte form of an IPv4 address, from either the
four-byte or the IPv4-in-IPv6 sixteen-byte representation; `none` otherwise. -/
def IP.To4 (ip : IP) : Option IP :=
  if ip.length = 4 then some ip
  else if ip.length = 16 ∧ ip.take 10 = List.replicate 10 0
      ∧ ip.getD 10 0 = 255 ∧ ip.getD 11 0 = 255 then some (ip.drop 12)
  else none

/-- Dotted-decimal text of a byte list (`netip.Addr.string4`). -/
def string4 : IP → List Char
  | [] => []
  | [b] => decDigits 3 b.val
  | b :: bs => decDigits 3 b.val ++ '.' :: string4 bs

/-- The eight 16-bit groups of a sixteen-byte address (`v6u16`). -/
def groups16 : IP → List Nat
  | hi :: lo :: rest => (hi.val * 256 + lo.val) :: groups16 rest
  | _ => []

/-- Length of the run of zero groups at the head of a list. -/
def zeroRun : List Nat → Nat
  | 0 :: gs => zeroRun gs + 1
  | _ => 0

/-- First loop of `appendTo6`: scanning start positions `i, i+1, ...` with
`gs` the groups from position `i` on, keep the first longest run of at least
two zero groups; `(zs, ze)` is the best run so far (initially `(255, 255)`). -/
def longestZeroRun : List Nat → Nat → Nat × Nat → Nat × Nat
  | [], _, best => best
  | g :: gs, i, best =>
    let l := zeroRun (g :: gs)
    let best1 := if 2 ≤ l ∧ best.2 - best.1 < l then (i, i + l) else best
    longestZeroRun gs (i + 1) best1

/-- Second loop of `appendTo6`: print group `i` onwards, replacing the chosen
zero run `[zs, ze)` by `::`. -/
def appendGroups (gs : List Nat) (zs ze : Nat) : Nat → Nat → List Char
  | 0, _ => []
  | fuel + 1, i =>
    if 8 ≤ i then []
    else if i = zs then
      ':' :: ':' ::
        (if 8 ≤ ze then []
         else hexDigits 4 (gs.getD ze 0) ++ appendGroups gs zs ze fuel (ze + 1))
    else if 0 < i then
      ':' :: (hexDigits 4 (gs.getD i 0) ++ appendGroups gs zs ze fuel (i + 1))
    else hexDigits 4 (gs.getD i 0) ++ appendGroups gs zs ze fuel (i + 1)

/-- Text of a sixteen-byte address without zone (`netip.Addr.string6`). -/
def string6 (ip : IP) : List Char :=
  let gs := groups16 ip
  let z := longestZeroRun gs 0 (255, 255)
  appendGroups gs z.1 z.2 8 0

/-- Go `IP.String`. -/
def IP.String (ip : IP) : String :=
  if ip.length = 0 then "<nil>"
  else if ip.length ≠ 4 ∧ ip.length ≠ 16 then String.mk ('?' :: hexString ip)
  else match ip.To4 with
    | some p4 => String.mk (string4 p4)
    | none => String.mk (string6 ip)

/-- The constant `v4InV6Prefix` of package `net`. -/
def v4InV6Prefix : IP := [0, 0, 0, 0, 0, 0, 0, 0, 0, 0, 255, 255]

/-- Go `IP.Equal`: the two slices denote the same IP address; a four-byte
IPv4 address and its sixteen-byte IPv4-in-IPv6 form are the same address. -/
def IP.Equal (ip x : IP) : Bool :=
  if ip.length = x.length then decide (ip = x)
  else if ip.length = 4 ∧ x.length = 16 then
    decide (x.take 12 = v4InV6Prefix ∧ ip = x.drop 12)
  else if ip.length = 16 ∧ x.length = 4 then
    decide (ip.take 12 = v4InV6Prefix ∧ ip.drop 12 = x)
  else false

/-- Go `net.UDPAddr`. -/
structure UDPAddr where
  IP : Turn.IP
  Port : Int
  Zone : String
deriving DecidableEq, Repr

/-- Go `net.TCPAddr`. -/
structure TCPAddr where
  IP : Turn.IP
  Port : Int
  Zone : String
deriving DecidableEq, Repr

/-- A value of the interface type `net.Addr`: the nil interface, a
`*net.UDPAddr`, a `*net.TCPAddr`, or any other implementation, of which only
the results of its `Network()` and `String()` methods are kept. -/
inductive Addr where
  | nil
  | udp (a : UDPAddr)
  | tcp (a : TCPAddr)
  | other (network text : String)
deriving DecidableEq, Repr

/-! ## `permission` -/

/-- Go `type permState int32`. -/
abbrev permState := Int

/-- First constant of the `iota` block. -/
def permStateIdle : permState := 0

/-- Second constant of the `iota` block. -/
def permStatePermitted : permState := 1

/-- Go `type permission struct`, without its mutex. -/
structure permission where
  addr : Addr
  st : permState
deriving DecidableEq, Repr

/-- The Go zero value `permission{}`. -/
def permission.zero : permission := { addr := Addr.nil, st := 0 }

/-- Go `(*permission).setState`, on the object pointed to. -/
def permission.setState (p : permission) (state : permState) : permission :=
  { p with st := state }

/-- Go `(*permission).state`. -/
def permission.state (p : permission) : permState := p.st

/-! ## `permissionMap` -/

/-- A `*permission`: the identity of a permission object. -/
abbrev PermRef := Nat

/-- Go `m[k]` on a `map[string]*permission`: the value and whether it is present. -/
def mapGet : List (String × PermRef) → String → Option PermRef
  | [], _ => none
  | (k1, v) :: rest, k => if k1 = k then some v else mapGet rest k

/-- Go `delete(m, k)`. -/
def mapDelete (l : List (String × PermRef)) (k : String) : List (String × PermRef) :=
  l.filter (fun e => decide (e.1 ≠ k))

/-- Go `m[k] = v`. -/
def mapSet (l : List (String × PermRef)) (k : String) (v : PermRef) :
    List (String × PermRef) :=
  (k, v) :: mapDelete l k

/-- Go `type permissionMap struct`, without its mutex. -/
structure permissionMap where
  permMap : List (String × PermRef)
deriving DecidableEq, Repr

/-- Program state: the permission objects on the heap and the permission map
under study. -/
structure Store where
  perms : PermRef → permission
  m : permissionMap

/-- Go `addr2IPFingerprint`. -/
def addr2IPFingerprint (addr : Addr) : String :=
  match addr with
  | Addr.udp a => a.IP.String
  | Addr.tcp a => a.IP.String
  | _ => ""

/-- Go `(*permissionMap).insert`: sets `p.addr`, stores `p` under the
fingerprint of `addr`, returns `true`. -/
def permissionMap.insert (σ : Store) (addr : Addr) (p : PermRef) : Bool × Store :=
  let perms1 := Function.update σ.perms p { σ.perms p with addr := addr }
  (true, { perms := perms1,
           m := { permMap := mapSet σ.m.permMap (addr2IPFingerprint addr) p } })

/-- Go `(*permissionMap).find`: the stored pointer (nil when absent) and the
found flag. -/
def permissionMap.find (σ : Store) (addr : Addr) : Option PermRef × Bool :=
  match mapGet σ.m.permMap (addr2IPFingerprint addr) with
  | some p => (some p, true)
  | none => (none, false)

/-- Go `(*permissionMap).delete`. -/
def permissionMap.delete (σ : Store) (addr : Addr) : Store :=
  { σ with m := { permMap := mapDelete σ.m.permMap (addr2IPFingerprint addr) } }

/-- Go `(*permissionMap).addrs`: the `addr` field of every stored permission,
in iteration order. -/
def permissionMap.addrs (σ : Store) : List Addr :=
  σ.m.permMap.map (fun e => (σ.perms e.2).addr)

/-- Go `newPermissionMap`. -/
def newPermissionMap : permissionMap := { permMap := [] }

/-- The statement `p.setState(state)` executed on the store. -/
def Store.setState (σ : Store) (p : PermRef) (state : permState) : Store :=
  { σ with perms := Function.update σ.perms p ((σ.perms p).setState state) }

/-- The expression `p.state()` evaluated on the store. -/
def Store.state (σ : Store) (p : PermRef) : permState := (σ.perms p).state

/-- A structural call on the map: `m.insert(addr, p)` or `m.delete(addr)`. -/
inductive Call where
  | insert (addr : Addr) (p : PermRef)
  | delete (addr : Addr)
deriving DecidableEq, Repr

/-- Effect of one call on the store. -/
def Call.exec (σ : Store) : Call → Store
  | Call.insert addr p => (permissionMap.insert σ addr p).2
  | Call.delete addr => permissionMap.delete σ addr

/-- The store after a sequence of calls on a map obtained from
`newPermissionMap()`, starting with the permission objects `perms`. -/
def run (perms : PermRef → permission) (cs : List Call) : Store :=
  cs.foldl Call.exec { perms := perms, m := newPermissionMap }

/-- The address passed to the most recent `insert` call of `cs` whose address
has fingerprint `k`; `none` when there was no such call. -/
def lastInsertedAddr (cs : List Call) (k : String) : Option Addr :=
  cs.foldl (fun acc c =>
    match c with
    | Call.insert addr _ => if addr2IPFingerprint addr = k then some addr else acc
    | Call.delete _ => acc) none

/-- Every permission object is inserted under one fingerprint only: any two
`insert` calls of `cs` that pass the same permission object pass addresses with
the same fingerprint. -/
def oneFingerprintPerPermission (cs : List Call) : Bool :=
  cs.all fun c => cs.all fun d =>
    match c, d with
    | Call.insert a p, Call.insert b q =>
      decide (p = q → addr2IPFingerprint a = addr2IPFingerprint b)
    | _, _ => true

/-- The IP field of a UDP or TCP address; other addresses have none. -/
def Addr.ip : Addr → Option IP
  | Addr.udp a => some a.IP
  | Addr.tcp a => some a.IP
  | _ => none

/-- Both addresses are UDP or TCP addresses and their IP fields are the same
IP address (Go `IP.Equal`). -/
def Addr.sameIP (a b : Addr) : Bool :=
  match a.ip, b.ip with
  | some x, some y => x.Equal y
  | _, _ => false

/-- Both addresses are UDP or TCP addresses and their IP fields are different
IP addresses (Go `IP.Equal` is false). -/
def Addr.differentIP (a b : Addr) : Bool :=
  match a.ip, b.ip with
  | some x, some y => !x.Equal y
  | _, _ => false

/-! ## Reading the text of an IP back

Auxiliary functions, used to show that `IP.String` gives different texts to
different IP addresses. -/

/-- Value of a digit character: its position in the table `hexDigit`. -/
def hexVal (c : Char) : Nat :=
  "0123456789abcdef".toList.indexOf c

/-- Number written by a list of digit characters in the given base. -/
def digitsVal (base : Nat) (l : List Char) : Nat :=
  l.foldl (fun acc c => acc * base + hexVal c) 0

/-- Split a text at every occurrence of the separator. -/
def splitAtChar (sep : Char) : List Char → List (List Char)
  | [] => [[]]
  | c :: cs =>
    if c = sep then [] :: splitAtChar sep cs
    else match splitAtChar sep cs with
      | [] => [[c]]
      | t :: ts => (c :: t) :: ts

/-- The groups `gs`, each preceded by a colon. -/
def colonEach : List Nat → List Char
  | [] => []
  | g :: gs => ':' :: (hexDigits 4 g ++ colonEach gs)

/-- What `appendGroups` prints after the `::`: the groups from `ze` on. -/
def tail6 (gs : List Nat) (ze : Nat) : List Char :=
  if 8 ≤ ze then [] else hexDigits 4 (gs.getD ze 0) ++ colonEach (gs.drop (ze + 1))

/-- Read the eight groups back from the colon-separated pieces of an IPv6
text: the pieces before the first empty piece, the pieces after the last empty
piece, and zero groups in between. -/
def decodeGroups (pieces : List (List Char)) : List Nat :=
  let pre := pieces.takeWhile (fun t => !t.isEmpty)
  let suf := (pieces.reverse.takeWhile (fun t => !t.isEmpty)).reverse
  if pre.length = pieces.length then pre.map (digitsVal 16)
  else pre.map (digitsVal 16) ++ List.replicate (8 - pre.length - suf.length) 0
    ++ suf.map (digitsVal 16)

/-- The shape of a text printed by `IP.String`: 0 when it starts with `<`, 1
when it starts with `?`, 3 when it has a colon, 2 otherwise. -/
def textKind (s : List Char) : Nat :=
  if s.head? = some '<' then 0
  else if s.head? = some '?' then 1
  else if ':' ∈ s then 3 else 2

/-- What the first loop of `appendTo6` guarantees about the run it returns:
either the initial `(255, 255)`, or a run of at least two zero groups. -/
def GoodRun (gs : List Nat) (z : Nat × Nat) : Prop :=
  z = (255, 255) ∨
    (z.1 + 2 ≤ z.2 ∧ z.2 ≤ 8 ∧ (gs.drop z.1).take (z.2 - z.1) = List.replicate (z.2 - z.1) 0)

/-! ## Sample values -/

/-- The UDP address `10.0.0.1:5000`. -/
def peerA : Addr := Addr.udp ⟨[10, 0, 0, 1], 5000, ""⟩

/-- The UDP address `10.0.0.1:6000`, with the IP in sixteen-byte form. -/
def peerA2 : Addr :=
  Addr.udp ⟨[0, 0, 0, 0, 0, 0, 0, 0, 0, 0, 255, 255, 10, 0, 0, 1], 6000, ""⟩

/-- The UDP address `10.0.0.2:7000`. -/
def peerB : Addr := Addr.udp ⟨[10, 0, 0, 2], 7000, ""⟩

/-- A heap in which every permission object has the zero value. -/
def zeroHeap : PermRef → permission := fun _ => permission.zero

/-- The store after `insert(peerA, 1)` on a new map. -/
def sampleStore : Store := run zeroHeap [Call.insert peerA 1]

/-! ## The request layer of the client, from the specification

The client, its transaction map and the allocation are not among the sources;
only their test is. This section follows the specification: the data model of
its section 3, the contracts and algorithms of its sections 4.1, 4.3 and 4.4,
and the error kinds of its section 7. One blocking request is one step: what
happens on the wire while the caller is blocked is an input (`Network`), and
time is counted in ticks from the moment the request is sent. -/

/-- Modelled from the spec: the error kinds of section 7, and
`DuplicateTransaction` of section 4.1; the client code is not among the
sources. -/
inductive ErrorKind where
  | Timeout
  | Cancelled
  | StaleCredentials
  | ProtocolError
  | TransportClosed
  | DuplicateTransaction
deriving DecidableEq, Repr

/-- Modelled from the spec: the transaction identifier of section 3 (a random
identifier, unique while outstanding); the transaction code is not among the
sources. -/
abbrev TransactionID := Nat

/-- Modelled from the spec: the server-issued nonce of the credential context
(section 3, glossary); the client code is not among the sources. -/
abbrev Nonce := String

/-- Modelled from the spec: the two requests the claims are about, the STUN
Binding request and the TURN CreatePermission request (sections 4.3, 4.4). -/
inductive Method where
  | Binding
  | CreatePermission
deriving DecidableEq, Repr

/-- Modelled from the spec: a request before encoding (encoding is out of the
specification's scope): its method, the server it is sent to, the peer it
names, and the nonce it is authenticated with. -/
structure Request where
  method : Method
  dest : Addr
  peer : Addr
  nonce : Nonce
deriving DecidableEq, Repr

/-- Modelled from the spec: a decoded response: the error code of an error
response (`none` for a success response), the nonce it offers, and the
XOR-mapped address of a Binding response. -/
structure Response where
  errorCode : Option Nat
  nonce : Option Nonce
  mappedAddr : Option Addr
deriving DecidableEq, Repr

/-- Modelled from the spec: the error code of a Stale Nonce response
(section 4.3, "a 438 response"). -/
def CodeStaleNonce : Nat := 438

/-- Modelled from the spec: the Transaction of section 3: identifier, request
payload, completion slot, deadline and retry count. -/
structure Transaction where
  id : TransactionID
  payload : Request
  result : Option (Except ErrorKind Response)
  deadline : Nat
  retries : Nat

/-- Modelled from the spec: the Transaction Manager of section 4.1, a map
from transaction identifier to transaction; the transaction map code is not
among the sources. -/
structure TransactionManager where
  trs : List Transaction

/-- Modelled from the spec: `find(transactionID) -> Transaction, found`
(section 4.1). -/
def TransactionManager.find (tm : TransactionManager) (id : TransactionID) :
    Option Transaction × Bool :=
  match tm.trs.find? (fun t => decide (t.id = id)) with
  | some t => (some t, true)
  | none => (none, false)

/-- Modelled from the spec: `register(transactionID) -> Transaction`, which
fails with `DuplicateTransaction` if the identifier already exists
(section 4.1). -/
def TransactionManager.register (tm : TransactionManager) (id : TransactionID)
    (payload : Request) (deadline : Nat) :
    Except ErrorKind (Transaction × TransactionManager) :=
  if (tm.find id).2 then Except.error ErrorKind.DuplicateTransaction
  else
    Except.ok ({ id := id, payload := payload, result := none, deadline := deadline,
                 retries := 0 },
               { trs := { id := id, payload := payload, result := none,
                          deadline := deadline, retries := 0 } :: tm.trs })

/-- Modelled from the spec: `remove(transactionID)`: deregisters; idempotent
(section 4.1). -/
def TransactionManager.remove (tm : TransactionManager) (id : TransactionID) :
    TransactionManager :=
  { trs := tm.trs.filter (fun t => decide (t.id ≠ id)) }

/-- Modelled from the spec: `size() -> int` (section 4.1). -/
def TransactionManager.size (tm : TransactionManager) : Nat := tm.trs.length

/-- Modelled from the spec: what happens to one request while its caller is
blocked: the identifiers the random generator proposes, the tick at which the
dispatch loop would complete the transaction with a response (`none`: no
response ever arrives), and the tick at which the client is closed (`none`:
it is not closed). -/
structure Network where
  random : List TransactionID
  responseAt : Option (Nat × Response)
  closedAt : Option Nat
deriving DecidableEq, Repr

/-- Modelled from the spec: step 1 of the blocking request (section 4.1): a
random identifier, checked against the current map. -/
def generateID (tm : TransactionManager) (random : List TransactionID) :
    Option TransactionID :=
  random.find? (fun id => !(tm.find id).2)

/-- Modelled from the spec: the three ways the wait of a blocking request ends
(section 4.1, step 3). -/
inductive WaitEvent where
  | response (r : Response)
  | rtoElapsed
  | clientClosed
deriving DecidableEq, Repr

/-- Modelled from the spec: step 3 of the blocking request (section 4.1): the
caller is blocked until the dispatch loop completes the transaction with a
response, the RTO elapses with no response, or the client is closed, whichever
comes first; the result is the event and the ticks waited. A response counts
when it arrives within the RTO. -/
def awaitTransaction (rto : Nat) (responseAt : Option (Nat × Response))
    (closedAt : Option Nat) : WaitEvent × Nat :=
  match closedAt, responseAt with
  | some tc, some (tr, r) =>
    if tc < tr ∧ tc < rto then (WaitEvent.clientClosed, tc)
    else if tr ≤ rto then (WaitEvent.response r, tr)
    else (WaitEvent.rtoElapsed, rto)
  | some tc, none =>
    if tc < rto then (WaitEvent.clientClosed, tc) else (WaitEvent.rtoElapsed, rto)
  | none, some (tr, r) =>
    if tr ≤ rto then (WaitEvent.response r, tr) else (WaitEvent.rtoElapsed, rto)
  | none, none => (WaitEvent.rtoElapsed, rto)

/-- Modelled from the spec: what a blocking request hands back: the response
or the error, the ticks the caller was blocked, and the transaction map
afterwards. -/
structure CallResult where
  result : Except ErrorKind Response
  waited : Nat
  trMap : TransactionManager

/-- Modelled from the spec: the blocking request `sendRequestTo` of section
4.1: generate an identifier, register the transaction and send, block; on a
response remove the transaction and return the response, on RTO expiry fail
with `Timeout` and remove the transaction, on close fail with `Cancelled`. -/
def sendRequestTo (tm : TransactionManager) (rto : Nat) (req : Request) (net : Network) :
    CallResult :=
  match generateID tm net.random with
  | none => { result := Except.error ErrorKind.DuplicateTransaction, waited := 0, trMap := tm }
  | some id =>
    match tm.register id req rto with
    | Except.error e => { result := Except.error e, waited := 0, trMap := tm }
    | Except.ok (_, tm1) =>
      match awaitTransaction rto net.responseAt net.closedAt with
      | (WaitEvent.response r, d) =>
        { result := Except.ok r, waited := d, trMap := tm1.remove id }
      | (WaitEvent.rtoElapsed, d) =>
        { result := Except.error ErrorKind.Timeout, waited := d, trMap := tm1.remove id }
      | (WaitEvent.clientClosed, d) =>
        { result := Except.error ErrorKind.Cancelled, waited := d, trMap := tm1 }

/-- Modelled from the spec: the Client of section 3: its Transaction Manager
(`trMap` in the test), the retransmission timeout `rto`, the server addresses
and the nonce of the credential context. -/
structure Client where
  trMap : TransactionManager
  rto : Nat
  STUNServerAddr : Addr
  TURNServerAddr : Addr
  nonce : Nonce

/-- Modelled from the spec: a client as `NewClient` returns it, with no
transaction outstanding. -/
def NewClient (stunServerAddr turnServerAddr : Addr) (rto : Nat) (nonce : Nonce) : Client :=
  { trMap := { trs := [] }, rto := rto, STUNServerAddr := stunServerAddr,
    TURNServerAddr := turnServerAddr, nonce := nonce }

/-- Modelled from the spec: what a Binding request hands back: the mapped
address or the error, the ticks the caller was blocked, and the client
afterwards. -/
structure BindingResult where
  result : Except ErrorKind Addr
  waited : Nat
  client : Client

/-- Modelled from the spec: `SendBindingRequestTo(addr)` of section 4.4:
sends a Binding request through the Transaction Manager and decodes the
XOR-mapped address from the response; a response without one, or an error
response, is a `ProtocolError`. -/
def Client.SendBindingRequestTo (c : Client) (dest : Addr) (net : Network) : BindingResult :=
  let r := sendRequestTo c.trMap c.rto
    { method := Method.Binding, dest := dest, peer := Addr.nil, nonce := c.nonce } net
  { result :=
      match r.result with
      | Except.error e => Except.error e
      | Except.ok resp =>
        match resp.errorCode, resp.mappedAddr with
        | none, some a => Except.ok a
        | _, _ => Except.error ErrorKind.ProtocolError
    waited := r.waited
    client := { c with trMap := r.trMap } }

/-- Modelled from the spec: `SendBindingRequest()` of section 4.4: the Binding
request to the configured STUN server. -/
def Client.SendBindingRequest (c : Client) (net : Network) : BindingResult :=
  c.SendBindingRequestTo c.STUNServerAddr net

/-- Modelled from the spec: the Allocation of section 3: the client whose
credential context it shares, the relayed address, and its permission map with
the permission objects. -/
structure Allocation where
  client : Client
  relayedAddr : Addr
  store : Store

/-- Modelled from the spec: the outcome of the CreatePermission exchange of
`WriteTo`: success or the error, the CreatePermission requests sent, in order,
and the client afterwards. -/
structure PermissionResult where
  result : Except ErrorKind Unit
  sent : List Request
  client : Client

/-- Modelled from the spec: one CreatePermission request for `peer`,
authenticated with the current nonce of the client, sent through the
Transaction Manager. -/
def createPermissionRequest (c : Client) (peer : Addr) : Request :=
  { method := Method.CreatePermission, dest := c.TURNServerAddr, peer := peer,
    nonce := c.nonce }

/-- Modelled from the spec: step 3 of `WriteTo` (section 4.3): the
CreatePermission request is sent; if the response is a Stale Nonce error the
fresh nonce is stored in the credential context and the same request is sent
again with it, once; a second Stale Nonce response is the fatal
`StaleCredentials`; any other error response is a `ProtocolError`. `net1` is
what happens to the first request, `net2` to the retry. -/
def createPermission (c : Client) (peer : Addr) (net1 net2 : Network) : PermissionResult :=
  let r1 := sendRequestTo c.trMap c.rto (createPermissionRequest c peer) net1
  let c1 : Client := { c with trMap := r1.trMap }
  match r1.result with
  | Except.error e =>
    { result := Except.error e, sent := [createPermissionRequest c peer], client := c1 }
  | Except.ok resp1 =>
    match resp1.errorCode with
    | none => { result := Except.ok (), sent := [createPermissionRequest c peer], client := c1 }
    | some code =>
      if code = CodeStaleNonce then
        let c2 : Client := { c1 with nonce := resp1.nonce.getD c1.nonce }
        let r2 := sendRequestTo c2.trMap c2.rto (createPermissionRequest c2 peer) net2
        let c3 : Client := { c2 with trMap := r2.trMap }
        { result :=
            match r2.result with
            | Except.error e => Except.error e
            | Except.ok resp2 =>
              match resp2.errorCode with
              | none => Except.ok ()
              | some code2 =>
                if code2 = CodeStaleNonce then Except.error ErrorKind.StaleCredentials
                else Except.error ErrorKind.ProtocolError
          sent := [createPermissionRequest c peer, createPermissionRequest c2 peer]
          client := c3 }
      else
        { result := Except.error ErrorKind.ProtocolError,
          sent := [createPermissionRequest c peer], client := c1 }

/-- Modelled from the spec: what `WriteTo` hands back: the number of bytes
written or the error, the CreatePermission requests sent, and the allocation
afterwards. -/
structure WriteResult where
  result : Except ErrorKind Nat
  sent : List Request
  alloc : Allocation

/-- Modelled from the spec: whether the permission of `peer` is present and
Permitted (step 1 of `WriteTo`). -/
def Allocation.permitted (a : Allocation) (peer : Addr) : Bool :=
  match permissionMap.find a.store peer with
  | (some p, true) => decide (a.store.state p = permStatePermitted)
  | _ => false

/-- Modelled from the spec: `WriteTo(data, peerAddr)` of section 4.3: if the
permission of the peer is absent or not Permitted, a CreatePermission request
is issued first (with the Stale Nonce retry) and, on success, the permission is
inserted or moved to Permitted; then the data is written. `fresh` is the
permission object created, Idle, for a peer without one. -/
def Allocation.WriteTo (a : Allocation) (data : List (Fin 256)) (peer : Addr)
    (fresh : PermRef) (net1 net2 : Network) : WriteResult :=
  if a.permitted peer then
    { result := Except.ok data.length, sent := [], alloc := a }
  else
    let r := createPermission a.client peer net1 net2
    match r.result with
    | Except.error e =>
      { result := Except.error e, sent := r.sent, alloc := { a with client := r.client } }
    | Except.ok _ =>
      let store1 : Store :=
        match permissionMap.find a.store peer with
        | (some p, true) => a.store.setState p permStatePermitted
        | _ =>
          (permissionMap.insert
            { a.store with perms := Function.update a.store.perms fresh permission.zero }
            peer fresh).2.setState fresh permStatePermitted
      { result := Except.ok data.length, sent := r.sent,
        alloc := { a with client := r.client, store := store1 } }

/-! ## Sample values of the request layer -/

/-- The STUN and TURN server `10.0.0.9:3478`. -/
def serverAddr : Addr := Addr.udp ⟨[10, 0, 0, 9], 3478, ""⟩

/-- A new client with an RTO of 10 ticks. -/
def sampleClient : Client := NewClient serverAddr serverAddr 10 "n0"

/-- A Binding success response that arrives after 3 ticks. -/
def bindingNetwork : Network :=
  { random := [7], closedAt := none,
    responseAt := some (3, { errorCode := none, nonce := none, mappedAddr := some peerA }) }

/-- No response, no close. -/
def silentNetwork : Network := { random := [7], closedAt := none, responseAt := none }

/-- A Stale Nonce response offering the nonce `n1`, after 2 ticks. -/
def staleNetwork : Network :=
  { random := [8], closedAt := none,
    responseAt := some (2, { errorCode := some 438, nonce := some "n1", mappedAddr := none }) }

/-- A success response after 2 ticks. -/
def successNetwork : Network :=
  { random := [9], closedAt := none,
    responseAt := some (2, { errorCode := none, nonce := none, mappedAddr := none }) }

/-- An allocation of the sample client with an empty permission map. -/
def sampleAllocation : Allocation :=
  { client := sampleClient, relayedAddr := serverAddr,
    store := { perms := zeroHeap, m := newPermissionMap } }

/-! ## Lemmas on the Go map operations -/

theorem mapDelete_cons (k1 : String) (v : PermRef) (rest : List (String × PermRef))
    (k : String) :
    mapDelete ((k1, v) :: rest) k
      = if k1 = k then mapDelete rest k else (k1, v) :: mapDelete rest k := by
  by_cases h : k1 = k <;> simp [mapDelete, h]

theorem mapGet_cons (k1 : String) (v : PermRef) (rest : List (String × PermRef))
    (k : String) :
    mapGet ((k1, v) :: rest) k = if k1 = k then some v else mapGet rest k := rfl

theorem mapGet_mapDelete_self (l : List (String × PermRef)) (k : String) :
    mapGet (mapDelete l k) k = none := by
  induction l with
  | nil => rfl
  | cons e rest ih =>
    obtain ⟨k1, v⟩ := e
    rw [mapDelete_cons]
    by_cases h : k1 = k
    · rw [if_pos h]; exact ih
    · rw [if_neg h, mapGet_cons, if_neg h]; exact ih

theorem mapGet_mapDelete_ne (l : List (String × PermRef)) {k k2 : String} (hne : k2 ≠ k) :
    mapGet (mapDelete l k) k2 = mapGet l k2 := by
  induction l with
  | nil => rfl
  | cons e rest ih =>
    obtain ⟨k1, v⟩ := e
    rw [mapDelete_cons, mapGet_cons]
    by_cases h : k1 = k
    · have h2 : k1 ≠ k2 := fun h3 => hne (h3 ▸ h)
      rw [if_pos h, if_neg h2]; exact ih
    · rw [if_neg h, mapGet_cons]
      by_cases h3 : k1 = k2
      · rw [if_pos h3, if_pos h3]
      · rw [if_neg h3, if_neg h3]; exact ih

theorem mapGet_mapSet_self (l : List (String × PermRef)) (k : String) (v : PermRef) :
    mapGet (mapSet l k v) k = some v := by
  simp [mapSet, mapGet]

theorem mapGet_mapSet_ne (l : List (String × PermRef)) {k k2 : String} (v : PermRef)
    (hne : k2 ≠ k) : mapGet (mapSet l k v) k2 = mapGet l k2 := by
  have h : k ≠ k2 := fun h => hne h.symm
  simp [mapSet, mapGet, h, mapGet_mapDelete_ne l hne]

theorem mapGet_eq_some_mem {l : List (String × PermRef)} {k : String} {v : PermRef}
    (h : mapGet l k = some v) : (k, v) ∈ l := by
  induction l with
  | nil => simp [mapGet] at h
  | cons e rest ih =>
    obtain ⟨k1, v1⟩ := e
    by_cases h1 : k1 = k
    · simp [mapGet, h1] at h
      simp [h1, h]
    · simp [mapGet, h1] at h
      exact List.mem_cons_of_mem _ (ih h)

theorem mapGet_ne_none_of_mem {l : List (String × PermRef)} {k : String} {v : PermRef}
    (h : (k, v) ∈ l) : mapGet l k ≠ none := by
  induction l with
  | nil => simp at h
  | cons e rest ih =>
    obtain ⟨k1, v1⟩ := e
    by_cases h1 : k1 = k
    · simp [mapGet, h1]
    · have h2 : (k, v) ∈ rest := by
        rcases List.mem_cons.mp h with h3 | h3
        · exact absurd (congrArg Prod.fst h3).symm h1
        · exact h3
      simpa [mapGet, h1] using ih h2

/-! ## Lemmas on `net.IP` -/

theorem IP.Equal_refl (ip : IP) : ip.Equal ip = true := by
  simp [IP.Equal]

theorem IP.To4_of_v4InV6 (ip x : IP) (h4 : ip.length = 4) (hx : x = v4InV6Prefix ++ ip) :
    x.To4 = some ip := by
  subst hx
  simp [IP.To4, v4InV6Prefix, h4]

/-- `IP.String` does not distinguish two representations of the same address. -/
theorem IP.String_eq_of_Equal {ip x : IP} (h : ip.Equal x = true) : ip.String = x.String := by
  unfold IP.Equal at h
  split at h
  · rw [of_decide_eq_true h]
  · split at h
    · rename_i hl
      obtain ⟨h1, h2⟩ := of_decide_eq_true h
      have hx : x = v4InV6Prefix ++ ip := by
        rw [← h1, h2, List.take_append_drop]
      have h4 := IP.To4_of_v4InV6 ip x hl.1 hx
      have h5 : ip.To4 = some ip := by simp [IP.To4, hl.1]
      simp [IP.String, hl.1, hl.2, h4, h5]
    · split at h
      · rename_i hl
        obtain ⟨h1, h2⟩ := of_decide_eq_true h
        have hx : ip = v4InV6Prefix ++ x := by
          rw [← h1, ← h2, List.take_append_drop]
        have h4 := IP.To4_of_v4InV6 x ip hl.2 hx
        have h5 : x.To4 = some x := by simp [IP.To4, hl.2]
        simp [IP.String, hl.1, hl.2, h4, h5]
      · exact absurd h (by simp)

/-! ## `IP.String` is injective up to `IP.Equal` -/

theorem hexVal_hexDigit : ∀ d < 16, hexVal (hexDigit d) = d := by decide

theorem hexDigit_mem : ∀ d < 16, hexDigit d ∈ "0123456789abcdef".toList := by decide

theorem digitsVal_snoc (base : Nat) (l : List Char) (c : Char) :
    digitsVal base (l ++ [c]) = digitsVal base l * base + hexVal c := by
  simp [digitsVal, List.foldl_append]

theorem digitsVal_hexDigits (fuel n : Nat) (h : n < 16 ^ fuel) :
    digitsVal 16 (hexDigits fuel n) = n := by
  induction fuel generalizing n with
  | zero => simp at h; subst h; rfl
  | succ f ih =>
    unfold hexDigits
    split
    · rename_i h1
      simp [digitsVal, hexVal_hexDigit n h1]
    · rename_i h1
      have h2 : n / 16 < 16 ^ f := by
        rw [Nat.div_lt_iff_lt_mul (by norm_num)]
        rw [pow_succ] at h
        exact h
      rw [digitsVal_snoc, ih _ h2, hexVal_hexDigit _ (Nat.mod_lt _ (by norm_num))]
      exact Nat.div_add_mod' n 16

theorem digitsVal_decDigits (fuel n : Nat) (h : n < 10 ^ fuel) :
    digitsVal 10 (decDigits fuel n) = n := by
  induction fuel generalizing n with
  | zero => simp at h; subst h; rfl
  | succ f ih =>
    unfold decDigits
    split
    · rename_i h1
      simp [digitsVal, hexVal_hexDigit n (by omega)]
    · rename_i h1
      have h2 : n / 10 < 10 ^ f := by
        rw [Nat.div_lt_iff_lt_mul (by norm_num)]
        rw [pow_succ] at h
        exact h
      rw [digitsVal_snoc, ih _ h2, hexVal_hexDigit _ (by omega)]
      exact Nat.div_add_mod' n 10

theorem hexDigits_mem (fuel n : Nat) :
    ∀ c ∈ hexDigits fuel n, c ∈ "0123456789abcdef".toList := by
  induction fuel generalizing n with
  | zero => simp [hexDigits]
  | succ f ih =>
    unfold hexDigits
    split
    · rename_i h1
      intro c hc
      rw [List.mem_singleton] at hc
      exact hc ▸ hexDigit_mem n h1
    · intro c hc
      rcases List.mem_append.mp hc with h | h
      · exact ih _ c h
      · rw [List.mem_singleton] at h
        exact h ▸ hexDigit_mem _ (Nat.mod_lt _ (by norm_num))

theorem decDigits_mem (fuel n : Nat) :
    ∀ c ∈ decDigits fuel n, c ∈ "0123456789abcdef".toList := by
  induction fuel generalizing n with
  | zero => simp [decDigits]
  | succ f ih =>
    unfold decDigits
    split
    · rename_i h1
      intro c hc
      rw [List.mem_singleton] at hc
      exact hc ▸ hexDigit_mem n (by omega)
    · intro c hc
      rcases List.mem_append.mp hc with h | h
      · exact ih _ c h
      · rw [List.mem_singleton] at h
        exact h ▸ hexDigit_mem _ (by omega)

theorem hexDigits_ne_nil (fuel n : Nat) : hexDigits (fuel + 1) n ≠ [] := by
  unfold hexDigits
  split <;> simp

theorem decDigits_ne_nil (fuel n : Nat) : decDigits (fuel + 1) n ≠ [] := by
  unfold decDigits
  split <;> simp

theorem splitAtChar_free (sep : Char) (t : List Char) (h : ∀ c ∈ t, c ≠ sep) :
    splitAtChar sep t = [t] := by
  induction t with
  | nil => rfl
  | cons c cs ih =>
    have h1 : c ≠ sep := h c (by simp)
    have h2 := ih (fun d hd => h d (List.mem_cons_of_mem _ hd))
    simp [splitAtChar, h1, h2]

theorem splitAtChar_append (sep : Char) (t rest : List Char) (h : ∀ c ∈ t, c ≠ sep) :
    splitAtChar sep (t ++ sep :: rest) = t :: splitAtChar sep rest := by
  induction t with
  | nil => simp [splitAtChar]
  | cons c cs ih =>
    have h1 : c ≠ sep := h c (by simp)
    have h2 := ih (fun d hd => h d (List.mem_cons_of_mem _ hd))
    simp [splitAtChar, h1, h2]

theorem table_ne_sep : ∀ c ∈ "0123456789abcdef".toList, c ≠ '.' ∧ c ≠ ':' ∧ c ≠ '<' ∧ c ≠ '?' := by
  decide

theorem decDigits_ne_dot (fuel n : Nat) : ∀ c ∈ decDigits fuel n, c ≠ '.' :=
  fun c hc => (table_ne_sep c (decDigits_mem fuel n c hc)).1

theorem hexDigits_ne_colon (fuel n : Nat) : ∀ c ∈ hexDigits fuel n, c ≠ ':' :=
  fun c hc => (table_ne_sep c (hexDigits_mem fuel n c hc)).2.1

theorem string4_cons_cons (b c : Fin 256) (bs : IP) :
    string4 (b :: c :: bs) = decDigits 3 b.val ++ '.' :: string4 (c :: bs) := rfl

theorem splitAtChar_string4 (ip : IP) (h : ip ≠ []) :
    splitAtChar '.' (string4 ip) = ip.map (fun b => decDigits 3 b.val) := by
  induction ip with
  | nil => exact absurd rfl h
  | cons b bs ih =>
    cases bs with
    | nil => exact splitAtChar_free _ _ (decDigits_ne_dot 3 b.val)
    | cons c cs =>
      rw [string4_cons_cons, splitAtChar_append _ _ _ (decDigits_ne_dot 3 b.val),
        ih (by simp)]
      rfl

theorem decDigits_byte_injective :
    Function.Injective (fun b : Fin 256 => decDigits 3 b.val) := by
  intro b c hbc
  have h := congrArg (digitsVal 10) hbc
  simp only at h
  rw [digitsVal_decDigits 3 b.val (by have := b.isLt; omega),
    digitsVal_decDigits 3 c.val (by have := c.isLt; omega)] at h
  exact Fin.ext h

theorem string4_injective {p q : IP} (hp : p ≠ []) (hq : q ≠ [])
    (h : string4 p = string4 q) : p = q := by
  have h1 := congrArg (splitAtChar '.') h
  rw [splitAtChar_string4 p hp, splitAtChar_string4 q hq] at h1
  exact List.map_injective_iff.mpr decDigits_byte_injective h1

theorem hexString_injective {p q : IP} (h : hexString p = hexString q) : p = q := by
  induction p generalizing q with
  | nil =>
    cases q with
    | nil => rfl
    | cons c cs => simp [hexString] at h
  | cons b bs ih =>
    cases q with
    | nil => simp [hexString] at h
    | cons c cs =>
      simp only [hexString, List.cons.injEq] at h
      obtain ⟨h1, h2, h3⟩ := h
      have hb := b.isLt
      have hc := c.isLt
      have e1 := congrArg hexVal h1
      have e2 := congrArg hexVal h2
      rw [hexVal_hexDigit _ (by omega), hexVal_hexDigit _ (by omega)] at e1 e2
      rw [ih h3]
      congr 1
      exact Fin.ext (by omega)

theorem drop_eq_getD_cons (gs : List Nat) (i : Nat) (h : i < gs.length) :
    gs.drop i = gs.getD i 0 :: gs.drop (i + 1) := by
  rw [List.getD_eq_getElem _ _ h]
  exact List.drop_eq_getElem_cons h

theorem appendGroups_after (gs : List Nat) (zs ze : Nat) (hlen : gs.length = 8)
    (fuel i : Nat) (hi : 0 < i) (hi8 : i ≤ 8) (hf : 8 ≤ i + fuel) (hz : zs < i ∨ 8 ≤ zs) :
    appendGroups gs zs ze fuel i = colonEach (gs.drop i) := by
  induction fuel generalizing i with
  | zero =>
    have : i = 8 := by omega
    subst this
    rw [List.drop_of_length_le (by omega)]
    rfl
  | succ f ih =>
    unfold appendGroups
    by_cases h8 : 8 ≤ i
    · rw [if_pos h8, List.drop_of_length_le (by omega)]
      rfl
    · have hne : i ≠ zs := by omega
      rw [if_neg h8, if_neg hne, if_pos hi, drop_eq_getD_cons gs i (by omega),
        ih (i + 1) (by omega) (by omega) (by omega) (by omega)]
      rfl

theorem appendGroups_before (gs : List Nat) (zs ze : Nat) (hlen : gs.length = 8)
    (hzs : zs < 8) (hze : zs < ze)
    (fuel i : Nat) (hi : 0 < i) (hiz : i ≤ zs) (hf : 8 ≤ i + fuel) :
    appendGroups gs zs ze fuel i
      = colonEach ((gs.drop i).take (zs - i)) ++ ':' :: ':' :: tail6 gs ze := by
  induction fuel generalizing i with
  | zero => omega
  | succ f ih =>
    unfold appendGroups
    have h8 : ¬ 8 ≤ i := by omega
    rw [if_neg h8]
    by_cases hz : i = zs
    · rw [if_pos hz, hz, Nat.sub_self, List.take_zero]
      simp only [colonEach, List.nil_append, tail6]
      by_cases h9 : 8 ≤ ze
      · rw [if_pos h9, if_pos h9]
      · rw [if_neg h9, if_neg h9,
          appendGroups_after gs zs ze hlen f (ze + 1) (by omega) (by omega) (by omega)
            (Or.inl (by omega))]
    · rw [if_neg hz, if_pos hi, ih (i + 1) (by omega) (by omega) (by omega),
        drop_eq_getD_cons gs i (by omega)]
      have : zs - i = (zs - (i + 1)) + 1 := by omega
      rw [this, List.take_succ_cons]
      simp [colonEach]

/-- Closed form of `appendGroups` from position 0. -/
theorem appendGroups_zero (gs : List Nat) (zs ze : Nat) (hlen : gs.length = 8)
    (hz : 8 ≤ zs ∨ zs < ze) :
    appendGroups gs zs ze 8 0
      = if 8 ≤ zs then hexDigits 4 (gs.getD 0 0) ++ colonEach (gs.drop 1)
        else if zs = 0 then ':' :: ':' :: tail6 gs ze
        else hexDigits 4 (gs.getD 0 0) ++
          (colonEach ((gs.drop 1).take (zs - 1)) ++ ':' :: ':' :: tail6 gs ze) := by
  unfold appendGroups
  rw [if_neg (by omega)]
  by_cases h8 : 8 ≤ zs
  · rw [if_pos h8, if_neg (by omega), if_neg (by omega),
      appendGroups_after gs zs ze hlen 7 1 (by omega) (by omega) (by omega) (Or.inr h8)]
  · have hze : zs < ze := by omega
    rw [if_neg h8]
    by_cases h0 : zs = 0
    · rw [if_pos h0.symm, if_pos h0]
      simp only [tail6]
      by_cases h9 : 8 ≤ ze
      · rw [if_pos h9, if_pos h9]
      · rw [if_neg h9, if_neg h9,
          appendGroups_after gs zs ze hlen 7 (ze + 1) (by omega) (by omega) (by omega)
            (Or.inl (by omega))]
    · rw [if_neg (fun h => h0 h.symm), if_neg (by omega), if_neg h0,
        appendGroups_before gs zs ze hlen (by omega) hze 7 1 (by omega) (by omega) (by omega)]

theorem zeroRun_le_length (l : List Nat) : zeroRun l ≤ l.length := by
  induction l with
  | nil => simp [zeroRun]
  | cons g gs ih =>
    cases g with
    | zero => simp only [zeroRun, List.length_cons]; omega
    | succ n => simp [zeroRun]

theorem take_zeroRun (l : List Nat) : l.take (zeroRun l) = List.replicate (zeroRun l) 0 := by
  induction l with
  | nil => simp [zeroRun]
  | cons g gs ih =>
    cases g with
    | zero => simp only [zeroRun, List.take_succ_cons, List.replicate_succ, ih]
    | succ n => simp [zeroRun]

theorem longestZeroRun_good (gs : List Nat) (hlen : gs.length = 8) (rest : List Nat)
    (i : Nat) (best : Nat × Nat) (hrest : gs.drop i = rest) (hb : GoodRun gs best) :
    GoodRun gs (longestZeroRun rest i best) := by
  induction rest generalizing i best with
  | nil => exact hb
  | cons g tl ih =>
    unfold longestZeroRun
    have htl : gs.drop (i + 1) = tl := by
      have h1 : gs.drop (i + 1) = (gs.drop i).drop 1 := by
        rw [List.drop_drop]
      rw [h1, hrest]
      rfl
    apply ih (i + 1) _ htl
    split
    · rename_i hc
      right
      have hle := zeroRun_le_length (g :: tl)
      have hl : (g :: tl).length = 8 - i := by
        rw [← hrest, List.length_drop, hlen]
      have hi : i < 8 := by
        by_contra hcon
        rw [List.drop_of_length_le (by omega)] at hrest
        cases hrest
      refine ⟨by simp only; omega, by simp only; omega, ?_⟩
      simp only [Nat.add_sub_cancel_left]
      rw [hrest]
      exact take_zeroRun _
    · exact hb

theorem longestZeroRun_spec (gs : List Nat) (hlen : gs.length = 8) :
    GoodRun gs (longestZeroRun gs 0 (255, 255)) :=
  longestZeroRun_good gs hlen gs 0 _ rfl (Or.inl rfl)

theorem length_sixteen {α : Type} (l : List α) (h : l.length = 16) :
    ∃ a0 a1 a2 a3 a4 a5 a6 a7 a8 a9 a10 a11 a12 a13 a14 a15 : α,
      l = [a0, a1, a2, a3, a4, a5, a6, a7, a8, a9, a10, a11, a12, a13, a14, a15] := by
  rcases l with _ | ⟨a0, l⟩
  · simp at h
  rcases l with _ | ⟨a1, l⟩
  · simp at h
  rcases l with _ | ⟨a2, l⟩
  · simp at h
  rcases l with _ | ⟨a3, l⟩
  · simp at h
  rcases l with _ | ⟨a4, l⟩
  · simp at h
  rcases l with _ | ⟨a5, l⟩
  · simp at h
  rcases l with _ | ⟨a6, l⟩
  · simp at h
  rcases l with _ | ⟨a7, l⟩
  · simp at h
  rcases l with _ | ⟨a8, l⟩
  · simp at h
  rcases l with _ | ⟨a9, l⟩
  · simp at h
  rcases l with _ | ⟨a10, l⟩
  · simp at h
  rcases l with _ | ⟨a11, l⟩
  · simp at h
  rcases l with _ | ⟨a12, l⟩
  · simp at h
  rcases l with _ | ⟨a13, l⟩
  · simp at h
  rcases l with _ | ⟨a14, l⟩
  · simp at h
  rcases l with _ | ⟨a15, l⟩
  · simp at h
  rcases l with _ | ⟨b, l⟩
  · exact ⟨a0, a1, a2, a3, a4, a5, a6, a7, a8, a9, a10, a11, a12, a13, a14, a15, rfl⟩
  · simp at h

theorem groups16_length (ip : IP) (h : ip.length = 16) : (groups16 ip).length = 8 := by
  obtain ⟨a0, a1, a2, a3, a4, a5, a6, a7, a8, a9, a10, a11, a12, a13, a14, a15, rfl⟩ :=
    length_sixteen ip h
  rfl

theorem groups16_lt (ip : IP) : ∀ g ∈ groups16 ip, g < 16 ^ 4 := by
  induction ip using groups16.induct with
  | case1 hi lo rest ih =>
    intro g hg
    simp only [groups16, List.mem_cons] at hg
    rcases hg with h | h
    · have := hi.isLt
      have := lo.isLt
      omega
    · exact ih g h
  | case2 l hl =>
    intro g hg
    cases l with
    | nil => simp [groups16] at hg
    | cons a tl =>
      cases tl with
      | nil => simp [groups16] at hg
      | cons b tl2 => exact absurd rfl (hl a b tl2)

theorem groups16_injective {p q : IP} (hp : p.length = 16) (hq : q.length = 16)
    (h : groups16 p = groups16 q) : p = q := by
  obtain ⟨a0, a1, a2, a3, a4, a5, a6, a7, a8, a9, a10, a11, a12, a13, a14, a15, rfl⟩ :=
    length_sixteen p hp
  obtain ⟨b0, b1, b2, b3, b4, b5, b6, b7, b8, b9, b10, b11, b12, b13, b14, b15, rfl⟩ :=
    length_sixteen q hq
  simp only [groups16, List.cons.injEq, and_true] at h
  obtain ⟨h0, h1, h2, h3, h4, h5, h6, h7⟩ := h
  have e : ∀ (x y u v : Fin 256), x.val * 256 + y.val = u.val * 256 + v.val → x = u ∧ y = v := by
    intro x y u v hxy
    have := x.isLt
    have := y.isLt
    have := u.isLt
    have := v.isLt
    exact ⟨Fin.ext (by omega), Fin.ext (by omega)⟩
  obtain ⟨r0, r1⟩ := e _ _ _ _ h0
  obtain ⟨r2, r3⟩ := e _ _ _ _ h1
  obtain ⟨r4, r5⟩ := e _ _ _ _ h2
  obtain ⟨r6, r7⟩ := e _ _ _ _ h3
  obtain ⟨r8, r9⟩ := e _ _ _ _ h4
  obtain ⟨r10, r11⟩ := e _ _ _ _ h5
  obtain ⟨r12, r13⟩ := e _ _ _ _ h6
  obtain ⟨r14, r15⟩ := e _ _ _ _ h7
  subst r0 r1 r2 r3 r4 r5 r6 r7 r8 r9 r10 r11 r12 r13 r14 r15
  rfl

theorem splitAtChar_sep_cons (sep : Char) (rest : List Char) :
    splitAtChar sep (sep :: rest) = [] :: splitAtChar sep rest := by
  simp [splitAtChar]

theorem splitAtChar_hex_colonEach (g : Nat) (l : List Nat) :
    splitAtChar ':' (hexDigits 4 g ++ colonEach l) = hexDigits 4 g :: l.map (hexDigits 4) := by
  induction l generalizing g with
  | nil =>
    simp only [colonEach, List.append_nil, List.map_nil]
    exact splitAtChar_free _ _ (hexDigits_ne_colon 4 g)
  | cons g2 l2 ih =>
    simp only [colonEach, List.map_cons]
    rw [splitAtChar_append _ _ _ (hexDigits_ne_colon 4 g), ih]

theorem splitAtChar_hex_colonEach_rest (g : Nat) (l : List Nat) (rest : List Char) :
    splitAtChar ':' (hexDigits 4 g ++ (colonEach l ++ ':' :: rest))
      = hexDigits 4 g :: (l.map (hexDigits 4) ++ splitAtChar ':' rest) := by
  induction l generalizing g with
  | nil =>
    simp only [colonEach, List.nil_append, List.map_nil]
    exact splitAtChar_append _ _ _ (hexDigits_ne_colon 4 g)
  | cons g2 l2 ih =>
    simp only [colonEach, List.map_cons, List.cons_append, List.append_assoc]
    rw [splitAtChar_append _ _ _ (hexDigits_ne_colon 4 g), ih]

theorem splitAtChar_tail6 (gs : List Nat) (ze : Nat) (hlen : gs.length = 8) :
    splitAtChar ':' (tail6 gs ze)
      = if 8 ≤ ze then [[]] else (gs.drop ze).map (hexDigits 4) := by
  unfold tail6
  by_cases h : 8 ≤ ze
  · rw [if_pos h, if_pos h]
    rfl
  · rw [if_neg h, if_neg h, splitAtChar_hex_colonEach, drop_eq_getD_cons gs ze (by omega)]
    rfl

/-- The colon-separated pieces of the text printed by `appendGroups`. -/
theorem splitAtChar_appendGroups (gs : List Nat) (zs ze : Nat) (hlen : gs.length = 8)
    (hz : 8 ≤ zs ∨ zs < ze) :
    splitAtChar ':' (appendGroups gs zs ze 8 0)
      = if 8 ≤ zs then gs.map (hexDigits 4)
        else (gs.take zs).map (hexDigits 4)
          ++ List.replicate ((if zs = 0 then 1 else 0) + (if 8 ≤ ze then 1 else 0) + 1) []
          ++ (gs.drop ze).map (hexDigits 4) := by
  rw [appendGroups_zero gs zs ze hlen hz]
  have h0 : gs = gs.getD 0 0 :: gs.drop 1 := by
    have := drop_eq_getD_cons gs 0 (by omega)
    simpa using this
  by_cases h8 : 8 ≤ zs
  · rw [if_pos h8, if_pos h8, splitAtChar_hex_colonEach]
    conv_rhs => rw [h0]
    rfl
  · rw [if_neg h8, if_neg h8]
    by_cases hzs : zs = 0
    · rw [if_pos hzs, if_pos hzs, splitAtChar_sep_cons, splitAtChar_sep_cons,
        splitAtChar_tail6 gs ze hlen, hzs]
      by_cases h9 : 8 ≤ ze
      · have hd : gs.drop ze = [] := List.drop_of_length_le (by omega)
        rw [if_pos h9, if_pos h9, hd]
        rfl
      · rw [if_neg h9, if_neg h9]
        rfl
    · rw [if_neg hzs, if_neg hzs, splitAtChar_hex_colonEach_rest, splitAtChar_sep_cons,
        splitAtChar_tail6 gs ze hlen]
      have ht : gs.take zs = gs.getD 0 0 :: (gs.drop 1).take (zs - 1) := by
        conv_lhs => rw [h0]
        have : zs = (zs - 1) + 1 := by omega
        rw [this, List.take_succ_cons]
        simp
      rw [ht]
      by_cases h9 : 8 ≤ ze
      · have hd : gs.drop ze = [] := List.drop_of_length_le (by omega)
        rw [if_pos h9, if_pos h9, hd]
        simp [List.replicate]
      · rw [if_neg h9, if_neg h9]
        simp [List.replicate]

theorem takeWhile_nonempty_append (A R : List (List Char)) (hA : ∀ t ∈ A, t ≠ []) :
    (A ++ [] :: R).takeWhile (fun t => !t.isEmpty) = A := by
  induction A with
  | nil => simp
  | cons a A ih =>
    have ha : a ≠ [] := hA a (by simp)
    have hA2 : ∀ t ∈ A, t ≠ [] := fun t ht => hA t (List.mem_cons_of_mem _ ht)
    cases a with
    | nil => exact absurd rfl ha
    | cons c cs => simp [List.takeWhile, ih hA2]

theorem takeWhile_nonempty_self (A : List (List Char)) (hA : ∀ t ∈ A, t ≠ []) :
    A.takeWhile (fun t => !t.isEmpty) = A := by
  induction A with
  | nil => simp
  | cons a A ih =>
    have ha : a ≠ [] := hA a (by simp)
    have hA2 : ∀ t ∈ A, t ≠ [] := fun t ht => hA t (List.mem_cons_of_mem _ ht)
    cases a with
    | nil => exact absurd rfl ha
    | cons c cs => simp [List.takeWhile, ih hA2]

theorem decodeGroups_plain (A : List (List Char)) (hA : ∀ t ∈ A, t ≠ []) :
    decodeGroups A = A.map (digitsVal 16) := by
  unfold decodeGroups
  simp only [takeWhile_nonempty_self A hA, if_true]

theorem decodeGroups_gap (A B : List (List Char)) (k : Nat)
    (hA : ∀ t ∈ A, t ≠ []) (hB : ∀ t ∈ B, t ≠ []) :
    decodeGroups (A ++ List.replicate (k + 1) [] ++ B)
      = A.map (digitsVal 16) ++ List.replicate (8 - A.length - B.length) 0
        ++ B.map (digitsVal 16) := by
  have hpre : (A ++ List.replicate (k + 1) [] ++ B).takeWhile (fun t => !t.isEmpty) = A := by
    rw [List.replicate_succ, List.append_assoc, List.cons_append]
    exact takeWhile_nonempty_append A _ hA
  have hsuf : (List.takeWhile (fun t : List Char => !t.isEmpty)
      (A ++ List.replicate (k + 1) [] ++ B).reverse).reverse = B := by
    have hrev : (A ++ List.replicate (k + 1) [] ++ B).reverse
        = B.reverse ++ [] :: (List.replicate k [] ++ A.reverse) := by
      rw [List.reverse_append, List.reverse_append, List.reverse_replicate, List.replicate_succ]
      simp
    rw [hrev, takeWhile_nonempty_append _ _ (fun t ht => hB t (List.mem_reverse.mp ht)),
      List.reverse_reverse]
  unfold decodeGroups
  simp only [hpre, hsuf]
  rw [if_neg]
  simp only [List.length_append, List.length_replicate]
  omega

theorem map_digitsVal_hexDigits (l : List Nat) (h : ∀ g ∈ l, g < 16 ^ 4) :
    (l.map (hexDigits 4)).map (digitsVal 16) = l := by
  rw [List.map_map]
  conv_rhs => rw [← List.map_id l]
  apply List.map_congr_left
  intro g hg
  exact digitsVal_hexDigits 4 g (h g hg)

theorem hexDigits_pieces_ne_nil (l : List Nat) : ∀ t ∈ l.map (hexDigits 4), t ≠ [] := by
  intro t ht
  obtain ⟨g, _, rfl⟩ := List.mem_map.mp ht
  exact hexDigits_ne_nil 3 g

/-- The groups can be read back from the text of a sixteen-byte address. -/
theorem decodeGroups_string6 (ip : IP) (h : ip.length = 16) :
    decodeGroups (splitAtChar ':' (string6 ip)) = groups16 ip := by
  have hlen := groups16_length ip h
  have hlt := groups16_lt ip
  have hgood := longestZeroRun_spec (groups16 ip) hlen
  unfold string6
  simp only
  generalize longestZeroRun (groups16 ip) 0 (255, 255) = z at hgood
  obtain ⟨zs, ze⟩ := z
  rcases hgood with hz | ⟨h1, h2, h3⟩
  · simp only [Prod.mk.injEq] at hz
    obtain ⟨rfl, rfl⟩ := hz
    rw [splitAtChar_appendGroups _ _ _ hlen (Or.inl (by omega)), if_pos (by omega),
      decodeGroups_plain _ (hexDigits_pieces_ne_nil _), map_digitsVal_hexDigits _ hlt]
  · simp only at h1 h2 h3
    rw [splitAtChar_appendGroups _ _ _ hlen (Or.inr (by omega)), if_neg (by omega),
      decodeGroups_gap _ _ _ (hexDigits_pieces_ne_nil _) (hexDigits_pieces_ne_nil _),
      map_digitsVal_hexDigits _ (fun g hg => hlt g (List.mem_of_mem_take hg)),
      map_digitsVal_hexDigits _ (fun g hg => hlt g (List.mem_of_mem_drop hg))]
    simp only [List.length_map, List.length_take, List.length_drop, hlen]
    have e1 : 8 - min zs 8 - (8 - ze) = ze - zs := by omega
    rw [e1, ← h3]
    have e2 : (groups16 ip).drop ze = ((groups16 ip).drop zs).drop (ze - zs) := by
      rw [List.drop_drop]
      congr 1
      omega
    rw [e2, List.append_assoc, List.take_append_drop, List.take_append_drop]

theorem string6_injective {p q : IP} (hp : p.length = 16) (hq : q.length = 16)
    (h : string6 p = string6 q) : p = q := by
  apply groups16_injective hp hq
  rw [← decodeGroups_string6 p hp, ← decodeGroups_string6 q hq, h]

theorem textKind_of_digits (s : List Char)
    (h : ∀ c ∈ s, c ∈ "0123456789abcdef".toList ∨ c = ':' ∨ c = '.') :
    textKind s = if ':' ∈ s then 3 else 2 := by
  unfold textKind
  cases s with
  | nil => simp
  | cons c cs =>
    have hc : c ≠ '<' ∧ c ≠ '?' := by
      rcases h c (by simp) with h1 | h1 | h1
      · exact ⟨(table_ne_sep c h1).2.2.1, (table_ne_sep c h1).2.2.2⟩
      · subst h1; decide
      · subst h1; decide
    simp [hc.1, hc.2]

theorem textKind_question (s : List Char) : textKind ('?' :: s) = 1 := by
  simp [textKind]

theorem string4_chars (p : IP) :
    ∀ c ∈ string4 p, c ∈ "0123456789abcdef".toList ∨ c = '.' := by
  induction p with
  | nil => simp [string4]
  | cons b bs ih =>
    cases bs with
    | nil =>
      intro c hc
      exact Or.inl (decDigits_mem 3 b.val c hc)
    | cons b2 bs2 =>
      intro c hc
      rw [string4_cons_cons] at hc
      rcases List.mem_append.mp hc with h | h
      · exact Or.inl (decDigits_mem 3 b.val c h)
      · rcases List.mem_cons.mp h with h2 | h2
        · exact Or.inr h2
        · exact ih c h2

theorem textKind_string4 (p : IP) : textKind (string4 p) = 2 := by
  have hch := string4_chars p
  rw [textKind_of_digits _ (fun c hc => (hch c hc).elim Or.inl (fun h => Or.inr (Or.inr h)))]
  rw [if_neg]
  intro hmem
  rcases hch _ hmem with h | h
  · exact (table_ne_sep _ h).2.1 rfl
  · exact absurd h (by decide)

theorem colonEach_chars (l : List Nat) :
    ∀ c ∈ colonEach l, c ∈ "0123456789abcdef".toList ∨ c = ':' := by
  induction l with
  | nil => simp [colonEach]
  | cons g gs ih =>
    intro c hc
    simp only [colonEach, List.mem_cons, List.mem_append] at hc
    rcases hc with h | h | h
    · exact Or.inr h
    · exact Or.inl (hexDigits_mem 4 g c h)
    · exact ih c h

theorem tail6_chars (gs : List Nat) (ze : Nat) :
    ∀ c ∈ tail6 gs ze, c ∈ "0123456789abcdef".toList ∨ c = ':' := by
  intro c hc
  unfold tail6 at hc
  split at hc
  · simp at hc
  · rcases List.mem_append.mp hc with h | h
    · exact Or.inl (hexDigits_mem 4 _ c h)
    · exact colonEach_chars _ c h

theorem string6_chars (ip : IP) (h : ip.length = 16) :
    (∀ c ∈ string6 ip, c ∈ "0123456789abcdef".toList ∨ c = ':') ∧ ':' ∈ string6 ip := by
  have hlen := groups16_length ip h
  have hgood := longestZeroRun_spec (groups16 ip) hlen
  unfold string6
  simp only
  generalize longestZeroRun (groups16 ip) 0 (255, 255) = z at hgood
  obtain ⟨zs, ze⟩ := z
  have hz : 8 ≤ zs ∨ zs < ze := by
    rcases hgood with hz | ⟨h1, _, _⟩
    · simp only [Prod.mk.injEq] at hz
      omega
    · simp only at h1
      omega
  rw [appendGroups_zero _ _ _ hlen hz]
  split
  · constructor
    · intro c hc
      rcases List.mem_append.mp hc with h1 | h1
      · exact Or.inl (hexDigits_mem 4 _ c h1)
      · exact colonEach_chars _ c h1
    · have hd : (groups16 ip).drop 1
          = (groups16 ip).getD 1 0 :: (groups16 ip).drop 2 :=
        drop_eq_getD_cons _ 1 (by omega)
      rw [hd]
      simp [colonEach]
  · split
    · constructor
      · intro c hc
        simp only [List.mem_cons] at hc
        rcases hc with h1 | h1 | h1
        · exact Or.inr h1
        · exact Or.inr h1
        · exact tail6_chars _ _ c h1
      · simp
    · constructor
      · intro c hc
        simp only [List.mem_cons, List.mem_append] at hc
        rcases hc with h1 | h1 | h1 | h1 | h1
        · exact Or.inl (hexDigits_mem 4 _ c h1)
        · exact colonEach_chars _ c h1
        · exact Or.inr h1
        · exact Or.inr h1
        · exact tail6_chars _ _ c h1
      · simp

theorem textKind_string6 (ip : IP) (h : ip.length = 16) : textKind (string6 ip) = 3 := by
  obtain ⟨h1, h2⟩ := string6_chars ip h
  rw [textKind_of_digits _ (fun c hc => (h1 c hc).elim Or.inl (fun h => Or.inr (Or.inl h))),
    if_pos h2]

theorem IP.To4_eq_some {ip p : IP} (h : ip.To4 = some p) :
    (ip.length = 4 ∧ ip = p) ∨ (ip.length = 16 ∧ p.length = 4 ∧ ip = v4InV6Prefix ++ p) := by
  unfold IP.To4 at h
  split at h
  · rename_i h4
    exact Or.inl ⟨h4, Option.some.inj h⟩
  · split at h
    · rename_i hc
      obtain ⟨h16, ht, h10, h11⟩ := hc
      have hp := Option.some.inj h
      obtain ⟨a0, a1, a2, a3, a4, a5, a6, a7, a8, a9, a10, a11, a12, a13, a14, a15, rfl⟩ :=
        length_sixteen ip h16
      right
      simp only [List.take, List.replicate, List.cons.injEq, and_true] at ht
      simp only [List.getD_cons_succ, List.getD_cons_zero] at h10 h11
      obtain ⟨r0, r1, r2, r3, r4, r5, r6, r7, r8, r9⟩ := ht
      subst r0 r1 r2 r3 r4 r5 r6 r7 r8 r9 h10 h11
      subst hp
      exact ⟨rfl, rfl, rfl⟩
    · exact absurd h (by simp)

theorem IP.Equal_of_To4_eq {ip x p : IP} (h1 : ip.To4 = some p) (h2 : x.To4 = some p) :
    ip.Equal x = true := by
  rcases IP.To4_eq_some h1 with ⟨_, rfl⟩ | ⟨a16, a4, rfl⟩
  · rcases IP.To4_eq_some h2 with ⟨_, rfl⟩ | ⟨b16, b4, rfl⟩
    · exact IP.Equal_refl _
    · rename_i h4
      simp [IP.Equal, h4, v4InV6Prefix]
  · rcases IP.To4_eq_some h2 with ⟨h4, rfl⟩ | ⟨b16, b4, rfl⟩
    · simp [IP.Equal, h4, v4InV6Prefix]
    · exact IP.Equal_refl _

theorem IP.To4_length {ip p : IP} (h : ip.To4 = some p) : p.length = 4 := by
  rcases IP.To4_eq_some h with ⟨h4, rfl⟩ | ⟨_, h4, _⟩
  · exact h4
  · exact h4

theorem IP.To4_none_length {ip : IP} (h : ip.To4 = none) (hl : ip.length = 4 ∨ ip.length = 16) :
    ip.length = 16 := by
  rcases hl with h4 | h16
  · simp [IP.To4, h4] at h
  · exact h16

/-- `IP.String` tells apart any two byte slices that are not the same IP
address. -/
theorem equal_of_String_eq {ip x : IP} (h : ip.String = x.String) : ip.Equal x = true := by
  have hnil : ("<nil>" : String) = String.mk ['<', 'n', 'i', 'l', '>'] := rfl
  unfold IP.String at h
  rw [hnil] at h
  by_cases hi0 : ip.length = 0
  · by_cases hx0 : x.length = 0
    · rw [List.length_eq_zero] at hi0 hx0
      rw [hi0, hx0]
      rfl
    · exfalso
      rw [if_pos hi0, if_neg hx0] at h
      split at h
      · have hk := congrArg (fun s : String => s.data.head?) h
        simp at hk
      · split at h
        · have hk := congrArg (fun s : String => textKind s.data) h
          simp only [textKind_string4, textKind_question] at hk
          exact absurd hk (by decide)
        · rename_i hl _ hn
          have h16 := IP.To4_none_length hn (by omega)
          have hk := congrArg (fun s : String => textKind s.data) h
          simp only [textKind_string6 x h16, textKind_question] at hk
          exact absurd hk (by decide)
  · rw [if_neg hi0] at h
    by_cases hil : ip.length ≠ 4 ∧ ip.length ≠ 16
    · rw [if_pos hil] at h
      by_cases hx0 : x.length = 0
      · exfalso
        rw [if_pos hx0] at h
        have hk := congrArg (fun s : String => s.data.head?) h
        simp at hk
      · rw [if_neg hx0] at h
        split at h
        · have hd := congrArg String.data h
          simp only [List.cons.injEq, true_and] at hd
          rw [hexString_injective hd]
          exact IP.Equal_refl _
        · exfalso
          split at h
          · have hk := congrArg (fun s : String => textKind s.data) h
            simp only [textKind_string4, textKind_question] at hk
            exact absurd hk (by decide)
          · rename_i hl _ hn
            have h16 := IP.To4_none_length hn (by omega)
            have hk := congrArg (fun s : String => textKind s.data) h
            simp only [textKind_string6 x h16, textKind_question] at hk
            exact absurd hk (by decide)
    · rw [if_neg hil] at h
      have hil2 : ip.length = 4 ∨ ip.length = 16 := by omega
      cases hi4 : ip.To4 with
      | some p =>
        rw [hi4] at h
        simp only at h
        by_cases hx0 : x.length = 0
        · exfalso
          rw [if_pos hx0] at h
          have hk := congrArg (fun s : String => textKind s.data) h
          simp only [textKind_string4, textKind_question] at hk
          exact absurd hk (by decide)
        · rw [if_neg hx0] at h
          split at h
          · exfalso
            have hk := congrArg (fun s : String => textKind s.data) h
            simp only [textKind_string4, textKind_question] at hk
            exact absurd hk (by decide)
          · split at h
            · rename_i q hq
              have hd := congrArg String.data h
              simp only at hd
              have hp4 := IP.To4_length hi4
              have hq4 := IP.To4_length hq
              have hpq : p = q := string4_injective
                (fun e => by rw [e] at hp4; exact absurd hp4 (by decide))
                (fun e => by rw [e] at hq4; exact absurd hq4 (by decide)) hd
              subst hpq
              exact IP.Equal_of_To4_eq hi4 hq
            · exfalso
              rename_i hl _ hn
              have h16 := IP.To4_none_length hn (by omega)
              have hk := congrArg (fun s : String => textKind s.data) h
              simp only [textKind_string4, textKind_string6 x h16] at hk
              exact absurd hk (by decide)
      | none =>
        rw [hi4] at h
        simp only at h
        have hi16 := IP.To4_none_length hi4 hil2
        by_cases hx0 : x.length = 0
        · exfalso
          rw [if_pos hx0] at h
          have hk := congrArg (fun s : String => textKind s.data) h
          simp only [textKind_string6 ip hi16, textKind_question] at hk
          exact absurd hk (by decide)
        · rw [if_neg hx0] at h
          split at h
          · exfalso
            have hk := congrArg (fun s : String => textKind s.data) h
            simp only [textKind_string6 ip hi16, textKind_question] at hk
            exact absurd hk (by decide)
          · split at h
            · exfalso
              have hk := congrArg (fun s : String => textKind s.data) h
              simp only [textKind_string4, textKind_string6 ip hi16] at hk
              exact absurd hk (by decide)
            · rename_i hl _ hn
              have h16 := IP.To4_none_length hn (by omega)
              have hd := congrArg String.data h
              simp only at hd
              rw [string6_injective hi16 h16 hd]
              exact IP.Equal_refl _

theorem fingerprint_eq_of_sameIP {a b : Addr} (h : a.sameIP b = true) :
    addr2IPFingerprint a = addr2IPFingerprint b := by
  cases a <;> cases b <;> simp only [Addr.sameIP, Addr.ip] at h <;>
    first
      | exact IP.String_eq_of_Equal h
      | exact absurd h (by simp)

theorem fingerprint_ne_of_differentIP {a b : Addr} (h : a.differentIP b = true) :
    addr2IPFingerprint a ≠ addr2IPFingerprint b := by
  intro hfp
  cases a <;> cases b <;> simp only [Addr.differentIP, Addr.ip] at h <;>
    first
      | (have he := equal_of_String_eq hfp
         rw [he] at h
         exact absurd h (by simp))
      | exact absurd h (by simp)

/-! ## Lemmas on the map methods -/

theorem find_eq_of_fingerprint_eq (σ : Store) {a b : Addr}
    (h : addr2IPFingerprint a = addr2IPFingerprint b) :
    permissionMap.find σ a = permissionMap.find σ b := by
  simp [permissionMap.find, h]

theorem find_insert_same (σ : Store) (a b : Addr) (p : PermRef)
    (h : addr2IPFingerprint b = addr2IPFingerprint a) :
    permissionMap.find (permissionMap.insert σ a p).2 b = (some p, true) := by
  simp [permissionMap.find, permissionMap.insert, h, mapGet_mapSet_self]

theorem find_insert_other (σ : Store) (a b : Addr) (p : PermRef)
    (h : addr2IPFingerprint b ≠ addr2IPFingerprint a) :
    permissionMap.find (permissionMap.insert σ a p).2 b = permissionMap.find σ b := by
  simp [permissionMap.find, permissionMap.insert, mapGet_mapSet_ne _ _ h]

theorem find_delete_same (σ : Store) (a b : Addr)
    (h : addr2IPFingerprint b = addr2IPFingerprint a) :
    permissionMap.find (permissionMap.delete σ a) b = (none, false) := by
  simp [permissionMap.find, permissionMap.delete, h, mapGet_mapDelete_self]

theorem mapDelete_comm (l : List (String × PermRef)) (k1 k2 : String) :
    mapDelete (mapDelete l k1) k2 = mapDelete (mapDelete l k2) k1 := by
  simp only [mapDelete, List.filter_filter]
  congr 1
  funext e
  exact Bool.and_comm _ _

theorem mapSet_mapSet_ne (l : List (String × PermRef)) {k1 k2 : String} (v1 v2 : PermRef)
    (h : k1 ≠ k2) :
    mapSet (mapSet l k1 v1) k2 v2
      = (k2, v2) :: (k1, v1) :: mapDelete (mapDelete l k1) k2 := by
  simp [mapSet, mapDelete_cons, h]

/-! ## Properties of the fingerprint and of single calls -/

/-- C6: the fingerprint of a UDP or TCP address is a function of its IP field
only: two such addresses with equal IP fields have equal fingerprints, whatever
their ports, zones and transport kinds. -/
theorem addr2IPFingerprint_depends_on_IP_only (ip : IP) (pa pb : Int) (za zb : String) :
    addr2IPFingerprint (Addr.udp ⟨ip, pa, za⟩) = addr2IPFingerprint (Addr.udp ⟨ip, pb, zb⟩)
    ∧ addr2IPFingerprint (Addr.udp ⟨ip, pa, za⟩) = addr2IPFingerprint (Addr.tcp ⟨ip, pb, zb⟩)
    ∧ addr2IPFingerprint (Addr.tcp ⟨ip, pa, za⟩) = addr2IPFingerprint (Addr.udp ⟨ip, pb, zb⟩)
    ∧ addr2IPFingerprint (Addr.tcp ⟨ip, pa, za⟩) = addr2IPFingerprint (Addr.tcp ⟨ip, pb, zb⟩) :=
  ⟨rfl, rfl, rfl, rfl⟩

/-- C1: for every store and any two UDP addresses, or any two TCP addresses,
whose IP fields denote the same IP (Go `IP.Equal`, in particular identical
fields), `find` returns the same pair of pointer and found flag, whatever the
ports and zones. -/
theorem find_port_insensitive (σ : Store) (ipA ipB : IP) (portA portB : Int)
    (zoneA zoneB : String) (h : ipA.Equal ipB = true) :
    permissionMap.find σ (Addr.udp ⟨ipA, portA, zoneA⟩)
      = permissionMap.find σ (Addr.udp ⟨ipB, portB, zoneB⟩)
    ∧ permissionMap.find σ (Addr.tcp ⟨ipA, portA, zoneA⟩)
      = permissionMap.find σ (Addr.tcp ⟨ipB, portB, zoneB⟩) :=
  ⟨find_eq_of_fingerprint_eq σ (IP.String_eq_of_Equal h),
   find_eq_of_fingerprint_eq σ (IP.String_eq_of_Equal h)⟩

/-- C2: `insert` returns `true` for every store, address and permission, and
afterwards `find` returns the inserted permission, with the found flag set, for
every address `b` with the same IP as the inserted address `a` (UDP or TCP
addresses whose IP fields are the same IP) and, more generally, for every `b`
with the fingerprint of `a`, whatever was stored before. -/
theorem insert_overwrites (σ : Store) (a b : Addr) (p : PermRef)
    (h : a.sameIP b = true ∨ addr2IPFingerprint b = addr2IPFingerprint a) :
    (permissionMap.insert σ a p).1 = true
    ∧ permissionMap.find (permissionMap.insert σ a p).2 b = (some p, true) :=
  ⟨rfl, find_insert_same σ a b p
    (h.elim (fun hs => (fingerprint_eq_of_sameIP hs).symm) id)⟩

/-- C3: after `delete(a)`, `find` reports not-found (nil pointer, flag false)
for every address `b` with the same IP as `a` (UDP or TCP addresses whose IP
fields are the same IP) and, more generally, for every `b` with the fingerprint
of `a`, whatever the ports. -/
theorem find_after_delete (σ : Store) (a b : Addr)
    (h : a.sameIP b = true ∨ addr2IPFingerprint b = addr2IPFingerprint a) :
    permissionMap.find (permissionMap.delete σ a) b = (none, false) :=
  find_delete_same σ a b (h.elim (fun hs => (fingerprint_eq_of_sameIP hs).symm) id)

/-- C7: the zero-valued permission is Idle, and Idle and Permitted are
distinct values. -/
theorem zero_permission_is_idle :
    permission.zero.state = permStateIdle ∧ permStateIdle ≠ permStatePermitted :=
  ⟨rfl, by decide⟩

/-- C8: after `p.setState(s)` the call `p.state()` returns `s`, for every
value `s` (in particular Idle and Permitted), and the `addr` field of `p` is
unchanged; this holds on the object and on the store that holds it. -/
theorem setState_state_roundtrip (σ : Store) (p : PermRef) (x : permission) (s : permState) :
    (x.setState s).state = s
    ∧ (x.setState s).addr = x.addr
    ∧ (σ.setState p s).state p = s
    ∧ ((σ.setState p s).perms p).addr = (σ.perms p).addr := by
  simp [permission.setState, permission.state, Store.setState, Store.state]

/-- C9: after `m.insert(a, p)` and then `p.setState(s)`, `find(a)` returns `p`
and its state is `s`; and `setState`, on any permission and with any state,
changes no `find` result and not the result of `addrs()`. -/
theorem setState_visible_through_map (σ : Store) (a : Addr) (p : PermRef) (s : permState) :
    permissionMap.find ((permissionMap.insert σ a p).2.setState p s) a = (some p, true)
    ∧ ((permissionMap.insert σ a p).2.setState p s).state p = s
    ∧ (∀ (τ : Store) (q : PermRef) (t : permState) (b : Addr),
        permissionMap.find (τ.setState q t) b = permissionMap.find τ b)
    ∧ (∀ (τ : Store) (q : PermRef) (t : permState),
        permissionMap.addrs (τ.setState q t) = permissionMap.addrs τ) := by
  refine ⟨?_, ?_, ?_, ?_⟩
  · exact find_insert_same σ a a p rfl
  · simp [Store.setState, Store.state, permission.setState, permission.state]
  · intro τ q t b
    rfl
  · intro τ q t
    simp only [permissionMap.addrs, Store.setState]
    apply List.map_congr_left
    intro e _
    by_cases h : e.2 = q
    · rw [h, Function.update_same]
      rfl
    · rw [Function.update_noteq h]

/-- Instance of `find_port_insensitive`: `10.0.0.1:5000` and `10.0.0.1:6000`. -/
theorem find_port_insensitive_witness :
    IP.Equal [10, 0, 0, 1] [0, 0, 0, 0, 0, 0, 0, 0, 0, 0, 255, 255, 10, 0, 0, 1] = true
    ∧ permissionMap.find sampleStore (Addr.udp ⟨[10, 0, 0, 1], 5000, ""⟩)
      = permissionMap.find sampleStore
          (Addr.udp ⟨[0, 0, 0, 0, 0, 0, 0, 0, 0, 0, 255, 255, 10, 0, 0, 1], 6000, ""⟩)
    ∧ permissionMap.find sampleStore (Addr.tcp ⟨[10, 0, 0, 1], 5000, ""⟩)
      = permissionMap.find sampleStore
          (Addr.tcp ⟨[0, 0, 0, 0, 0, 0, 0, 0, 0, 0, 255, 255, 10, 0, 0, 1], 6000, ""⟩) :=
  ⟨by decide, find_port_insensitive sampleStore _ _ 5000 6000 "" "" (by decide)⟩

/-- Instance of `insert_overwrites`: permission 2 replaces permission 1. -/
theorem insert_overwrites_witness :
    peerA.sameIP peerA2 = true
    ∧ permissionMap.find sampleStore peerA2 = (some 1, true)
    ∧ (permissionMap.insert sampleStore peerA 2).1 = true
    ∧ permissionMap.find (permissionMap.insert sampleStore peerA 2).2 peerA2 = (some 2, true) :=
  ⟨by decide, by decide, insert_overwrites sampleStore peerA peerA2 2 (Or.inl (by decide))⟩

/-- Instance of `find_after_delete`: deleting with another port of the same IP. -/
theorem find_after_delete_witness :
    peerA2.sameIP peerA = true
    ∧ permissionMap.find sampleStore peerA = (some 1, true)
    ∧ permissionMap.find (permissionMap.delete sampleStore peerA2) peerA = (none, false) :=
  ⟨by decide, by decide, find_after_delete sampleStore peerA2 peerA (Or.inl (by decide))⟩

/-! ## Order of insertion -/

theorem insert_insert_perms (σ : Store) (a b : Addr) {p q : PermRef} (hpq : p ≠ q) :
    (permissionMap.insert (permissionMap.insert σ a p).2 b q).2.perms
      = (permissionMap.insert (permissionMap.insert σ b q).2 a p).2.perms := by
  funext x
  simp only [permissionMap.insert]
  by_cases hxq : x = q
  · subst hxq
    rw [Function.update_same, Function.update_noteq (Ne.symm hpq), Function.update_noteq
      (Ne.symm hpq), Function.update_same]
  · by_cases hxp : x = p
    · subst hxp
      rw [Function.update_noteq hxq, Function.update_same, Function.update_same,
        Function.update_noteq hpq]
    · rw [Function.update_noteq hxq, Function.update_noteq hxp, Function.update_noteq hxp,
        Function.update_noteq hxq]

/-- C10: for every store, two addresses with different IPs (UDP or TCP
addresses whose IP fields are different IPs) or, more generally, with different
fingerprints, and two distinct permission objects, inserting `(a, p)` then
`(b, q)` and inserting `(b, q)` then `(a, p)` give the same `find` result for
every address and the same addresses in `addrs()` up to order (and the same
permission objects). -/
theorem insert_order_irrelevant (σ : Store) (a b : Addr) (p q : PermRef)
    (hd : a.differentIP b = true ∨ addr2IPFingerprint a ≠ addr2IPFingerprint b)
    (hpq : p ≠ q) :
    (∀ x : Addr,
      permissionMap.find (permissionMap.insert (permissionMap.insert σ a p).2 b q).2 x
        = permissionMap.find (permissionMap.insert (permissionMap.insert σ b q).2 a p).2 x)
    ∧ (permissionMap.addrs (permissionMap.insert (permissionMap.insert σ a p).2 b q).2).Perm
        (permissionMap.addrs (permissionMap.insert (permissionMap.insert σ b q).2 a p).2)
    ∧ (permissionMap.insert (permissionMap.insert σ a p).2 b q).2.perms
        = (permissionMap.insert (permissionMap.insert σ b q).2 a p).2.perms := by
  have hab : addr2IPFingerprint a ≠ addr2IPFingerprint b :=
    hd.elim fingerprint_ne_of_differentIP id
  have hperms := insert_insert_perms σ a b hpq
  refine ⟨?_, ?_, hperms⟩
  · intro x
    by_cases hxb : addr2IPFingerprint x = addr2IPFingerprint b
    · have hxa : addr2IPFingerprint x ≠ addr2IPFingerprint a := fun h => hab (h.symm.trans hxb)
      rw [find_insert_same _ b x q hxb, find_insert_other _ a x p hxa,
        find_insert_same _ b x q hxb]
    · rw [find_insert_other _ b x q hxb]
      by_cases hxa : addr2IPFingerprint x = addr2IPFingerprint a
      · rw [find_insert_same _ a x p hxa, find_insert_same _ a x p hxa]
      · rw [find_insert_other _ a x p hxa, find_insert_other _ a x p hxa,
          find_insert_other _ b x q hxb]
  · unfold permissionMap.addrs
    rw [hperms]
    apply List.Perm.map
    show (mapSet (mapSet σ.m.permMap (addr2IPFingerprint a) p) (addr2IPFingerprint b) q).Perm
      (mapSet (mapSet σ.m.permMap (addr2IPFingerprint b) q) (addr2IPFingerprint a) p)
    rw [mapSet_mapSet_ne _ p q hab, mapSet_mapSet_ne _ q p (Ne.symm hab), mapDelete_comm]
    exact List.Perm.swap _ _ _

/-- Instance of `insert_order_irrelevant` on the sample store. -/
theorem insert_order_irrelevant_witness :
    peerA.differentIP peerB = true ∧ (2 : PermRef) ≠ 3
    ∧ (∀ x : Addr,
      permissionMap.find
          (permissionMap.insert (permissionMap.insert sampleStore peerA 2).2 peerB 3).2 x
        = permissionMap.find
          (permissionMap.insert (permissionMap.insert sampleStore peerB 3).2 peerA 2).2 x)
    ∧ (permissionMap.addrs
          (permissionMap.insert (permissionMap.insert sampleStore peerA 2).2 peerB 3).2).Perm
        (permissionMap.addrs
          (permissionMap.insert (permissionMap.insert sampleStore peerB 3).2 peerA 2).2)
    ∧ (permissionMap.insert (permissionMap.insert sampleStore peerA 2).2 peerB 3).2.perms
        = (permissionMap.insert (permissionMap.insert sampleStore peerB 3).2 peerA 2).2.perms :=
  ⟨by decide, by decide,
   insert_order_irrelevant sampleStore peerA peerB 2 3 (Or.inl (by decide)) (by decide)⟩

/-! ## Reachable states -/

theorem run_snoc (perms : PermRef → permission) (cs : List Call) (c : Call) :
    run perms (cs ++ [c]) = Call.exec (run perms cs) c := by
  simp [run, List.foldl_append]

theorem lastInsertedAddr_snoc_insert (cs : List Call) (a : Addr) (p : PermRef) (k : String) :
    lastInsertedAddr (cs ++ [Call.insert a p]) k
      = if addr2IPFingerprint a = k then some a else lastInsertedAddr cs k := by
  simp [lastInsertedAddr, List.foldl_append]

theorem lastInsertedAddr_snoc_delete (cs : List Call) (a : Addr) (k : String) :
    lastInsertedAddr (cs ++ [Call.delete a]) k = lastInsertedAddr cs k := by
  simp [lastInsertedAddr, List.foldl_append]

theorem oneFingerprintPerPermission_iff (cs : List Call) :
    oneFingerprintPerPermission cs = true ↔
      ∀ a b p, Call.insert a p ∈ cs → Call.insert b p ∈ cs →
        addr2IPFingerprint a = addr2IPFingerprint b := by
  unfold oneFingerprintPerPermission
  rw [List.all_eq_true]
  constructor
  · intro h a b p ha hb
    have h1 := h _ ha
    rw [List.all_eq_true] at h1
    have h2 := h1 _ hb
    simpa using h2
  · intro h c hc
    rw [List.all_eq_true]
    intro d hd
    cases c with
    | delete a => rfl
    | insert a p =>
      cases d with
      | delete b => rfl
      | insert b q =>
        simp only [decide_eq_true_eq]
        intro hpq
        subst hpq
        exact h a b p hc hd

theorem oneFingerprintPerPermission_of_snoc {cs : List Call} {c : Call}
    (h : oneFingerprintPerPermission (cs ++ [c]) = true) :
    oneFingerprintPerPermission cs = true := by
  rw [oneFingerprintPerPermission_iff] at h ⊢
  intro a b p ha hb
  exact h a b p (List.mem_append_left _ ha) (List.mem_append_left _ hb)

theorem mem_mapDelete {l : List (String × PermRef)} {k : String} {e : String × PermRef} :
    e ∈ mapDelete l k ↔ e ∈ l ∧ e.1 ≠ k := by
  simp [mapDelete]

theorem keys_mapDelete_nodup {l : List (String × PermRef)} (k : String)
    (h : (l.map Prod.fst).Nodup) : ((mapDelete l k).map Prod.fst).Nodup := by
  apply List.Nodup.sublist _ h
  exact List.Sublist.map _ (List.filter_sublist l)

theorem keys_mapSet_nodup {l : List (String × PermRef)} (k : String) (v : PermRef)
    (h : (l.map Prod.fst).Nodup) : ((mapSet l k v).map Prod.fst).Nodup := by
  simp only [mapSet, List.map_cons]
  rw [List.nodup_cons]
  refine ⟨?_, keys_mapDelete_nodup k h⟩
  intro hk
  obtain ⟨e, he, hek⟩ := List.mem_map.mp hk
  exact (mem_mapDelete.mp he).2 hek

/-- Invariant of the reachable states: the keys of the map are pairwise
distinct, and every entry was put there by an `insert` of its permission with
an address of that fingerprint. -/
theorem run_keys (perms : PermRef → permission) (cs : List Call) :
    ((run perms cs).m.permMap.map Prod.fst).Nodup
    ∧ ∀ e ∈ (run perms cs).m.permMap,
        ∃ a, Call.insert a e.2 ∈ cs ∧ addr2IPFingerprint a = e.1 := by
  induction cs using List.reverseRecOn with
  | nil => simp [run, newPermissionMap]
  | append_singleton cs c ih =>
    obtain ⟨ih1, ih2⟩ := ih
    rw [run_snoc]
    cases c with
    | insert a p =>
      refine ⟨keys_mapSet_nodup _ p ih1, ?_⟩
      intro e he
      rcases List.mem_cons.mp he with h | h
      · exact ⟨a, by simp [h], by simp [h]⟩
      · obtain ⟨b, hb1, hb2⟩ := ih2 e (mem_mapDelete.mp h).1
        exact ⟨b, List.mem_append_left _ hb1, hb2⟩
    | delete a =>
      refine ⟨keys_mapDelete_nodup _ ih1, ?_⟩
      intro e he
      obtain ⟨b, hb1, hb2⟩ := ih2 e (mem_mapDelete.mp he).1
      exact ⟨b, List.mem_append_left _ hb1, hb2⟩

/-- Invariant of the reachable states when no permission object is inserted
under two fingerprints: the `addr` field of every stored permission is the
address of the most recent `insert` for the key it is stored under. -/
theorem run_addr (perms : PermRef → permission) (cs : List Call)
    (h : oneFingerprintPerPermission cs = true) :
    ∀ e ∈ (run perms cs).m.permMap,
      lastInsertedAddr cs e.1 = some ((run perms cs).perms e.2).addr
      ∧ addr2IPFingerprint ((run perms cs).perms e.2).addr = e.1 := by
  induction cs using List.reverseRecOn with
  | nil => simp [run, newPermissionMap]
  | append_singleton cs c ih =>
    have ih1 := ih (oneFingerprintPerPermission_of_snoc h)
    have hk := (run_keys perms cs).2
    rw [run_snoc]
    cases c with
    | insert a p =>
      intro e he
      rw [lastInsertedAddr_snoc_insert]
      rcases List.mem_cons.mp he with h1 | h1
      · subst h1
        simp [Call.exec, permissionMap.insert]
      · obtain ⟨hmem, hne⟩ := mem_mapDelete.mp h1
        have hne2 : addr2IPFingerprint a ≠ e.1 := fun h2 => hne h2.symm
        obtain ⟨b, hb1, hb2⟩ := hk e hmem
        have hp : e.2 ≠ p := by
          intro h3
          apply hne2
          rw [← hb2]
          apply (oneFingerprintPerPermission_iff _).mp h a b p
          · simp
          · rw [← h3]
            exact List.mem_append_left _ hb1
        have hperm : (Call.exec (run perms cs) (Call.insert a p)).perms e.2
            = (run perms cs).perms e.2 := by
          simp [Call.exec, permissionMap.insert, Function.update_noteq hp]
        rw [if_neg hne2, hperm]
        exact ih1 e hmem
    | delete a =>
      intro e he
      rw [lastInsertedAddr_snoc_delete]
      exact ih1 e (mem_mapDelete.mp he).1

theorem find_found_iff (σ : Store) (b : Addr) :
    (permissionMap.find σ b).2 = true ↔
      ∃ p, (addr2IPFingerprint b, p) ∈ σ.m.permMap := by
  unfold permissionMap.find
  constructor
  · intro h
    cases hg : mapGet σ.m.permMap (addr2IPFingerprint b) with
    | none => simp [hg] at h
    | some p => exact ⟨p, mapGet_eq_some_mem hg⟩
  · rintro ⟨p, hp⟩
    cases hg : mapGet σ.m.permMap (addr2IPFingerprint b) with
    | none => exact absurd hg (mapGet_ne_none_of_mem hp)
    | some q => rfl

theorem nodup_keys_unique {l : List (String × PermRef)} (h : (l.map Prod.fst).Nodup)
    {k : String} {v w : PermRef} (hv : (k, v) ∈ l) (hw : (k, w) ∈ l) : v = w := by
  have hinj := List.inj_on_of_nodup_map h hv hw rfl
  exact congrArg Prod.snd hinj

/-! ## `addrs` on reachable states -/

/-- C4, as stated, fails: after `insert(10.0.0.1:5000, p)` and
`insert(10.0.0.2:7000, p)` with the same permission object `p`, `find` reports
found for `10.0.0.1`, the most recent insert for that IP passed
`10.0.0.1:5000`, yet `addrs()` is `10.0.0.2:7000` twice and does not contain
`10.0.0.1:5000`. -/
theorem addrs_snapshot_fails_with_shared_permission :
    (permissionMap.find (run zeroHeap [Call.insert peerA 1, Call.insert peerB 1]) peerA).2 = true
    ∧ lastInsertedAddr [Call.insert peerA 1, Call.insert peerB 1] (addr2IPFingerprint peerA)
        = some peerA
    ∧ peerA ∉ permissionMap.addrs (run zeroHeap [Call.insert peerA 1, Call.insert peerB 1])
    ∧ permissionMap.addrs (run zeroHeap [Call.insert peerA 1, Call.insert peerB 1])
        = [peerB, peerB] := by
  decide

/-- C4, amended: in every state reached from a new map by `insert` and `delete`
calls in which no permission object is inserted under two different
fingerprints, an address is in `addrs()` exactly when `find` reports found for
it and it is the address passed to the most recent `insert` for its
fingerprint; and `addrs()` has no repetition. -/
theorem addrs_snapshot (perms : PermRef → permission) (cs : List Call)
    (h : oneFingerprintPerPermission cs = true) :
    (∀ x : Addr, x ∈ permissionMap.addrs (run perms cs) ↔
      ((permissionMap.find (run perms cs) x).2 = true
        ∧ lastInsertedAddr cs (addr2IPFingerprint x) = some x))
    ∧ (permissionMap.addrs (run perms cs)).Nodup := by
  have hk := (run_keys perms cs).1
  have ha := run_addr perms cs h
  constructor
  · intro x
    constructor
    · intro hx
      obtain ⟨e, he, hex⟩ := List.mem_map.mp hx
      obtain ⟨h1, h2⟩ := ha e he
      rw [hex] at h1 h2
      refine ⟨(find_found_iff _ _).mpr ⟨e.2, ?_⟩, ?_⟩
      · rw [h2]; exact he
      · rw [h2]; exact h1
    · rintro ⟨hf, hl⟩
      obtain ⟨p, hp⟩ := (find_found_iff _ _).mp hf
      have h1 := (ha _ hp).1
      rw [hl] at h1
      exact List.mem_map.mpr ⟨_, hp, (Option.some.inj h1).symm⟩
  · have hmap : (permissionMap.addrs (run perms cs)).map addr2IPFingerprint
        = (run perms cs).m.permMap.map Prod.fst := by
      simp only [permissionMap.addrs, List.map_map]
      apply List.map_congr_left
      intro e he
      exact (ha e he).2
    exact List.Nodup.of_map addr2IPFingerprint (hmap ▸ hk)

/-- Instance of `addrs_snapshot`: two permissions, one re-inserted with
another port, one deleted. -/
theorem addrs_snapshot_witness :
    oneFingerprintPerPermission
        [Call.insert peerA 1, Call.insert peerB 2, Call.insert peerA2 1, Call.delete peerB] = true
    ∧ (∀ x : Addr,
        x ∈ permissionMap.addrs (run zeroHeap
            [Call.insert peerA 1, Call.insert peerB 2, Call.insert peerA2 1, Call.delete peerB]) ↔
        ((permissionMap.find (run zeroHeap
            [Call.insert peerA 1, Call.insert peerB 2, Call.insert peerA2 1, Call.delete peerB])
            x).2 = true
          ∧ lastInsertedAddr
              [Call.insert peerA 1, Call.insert peerB 2, Call.insert peerA2 1, Call.delete peerB]
              (addr2IPFingerprint x) = some x))
    ∧ (permissionMap.addrs (run zeroHeap
        [Call.insert peerA 1, Call.insert peerB 2, Call.insert peerA2 1, Call.delete peerB])).Nodup :=
  ⟨by decide, addrs_snapshot zeroHeap _ (by decide)⟩

/-- C5, as stated, fails: after `insert(10.0.0.1:5000, p)` and
`insert(10.0.0.2:7000, p)` with the same permission object `p`, the two
addresses returned by `addrs()` have the same fingerprint. -/
theorem addrs_fingerprints_repeat_with_shared_permission :
    ¬ ((permissionMap.addrs (run zeroHeap [Call.insert peerA 7, Call.insert peerB 7])).map
        addr2IPFingerprint).Nodup := by
  decide

/-- C5, amended: in every state reached from a new map by `insert` and `delete`
calls, the map has at most one entry per fingerprint and the number of
addresses returned by `addrs()` equals the number of distinct fingerprints for
which `find` reports found; when no permission object is inserted under two
different fingerprints, the returned addresses have pairwise distinct
fingerprints. -/
theorem one_permission_per_fingerprint (perms : PermRef → permission) (cs : List Call) :
    ((run perms cs).m.permMap.map Prod.fst).Nodup
    ∧ Set.ncard {k : String | ∃ b : Addr,
          addr2IPFingerprint b = k ∧ (permissionMap.find (run perms cs) b).2 = true}
        = (permissionMap.addrs (run perms cs)).length
    ∧ (oneFingerprintPerPermission cs = true →
        ((permissionMap.addrs (run perms cs)).map addr2IPFingerprint).Nodup) := by
  obtain ⟨hk, hins⟩ := run_keys perms cs
  refine ⟨hk, ?_, ?_⟩
  · have hset : {k : String | ∃ b : Addr,
          addr2IPFingerprint b = k ∧ (permissionMap.find (run perms cs) b).2 = true}
        = ↑((run perms cs).m.permMap.map Prod.fst).toFinset := by
      ext k
      simp only [Set.mem_setOf_eq, List.coe_toFinset, List.mem_map]
      constructor
      · rintro ⟨b, hb, hf⟩
        obtain ⟨p, hp⟩ := (find_found_iff _ _).mp hf
        exact ⟨_, hp, hb⟩
      · rintro ⟨e, he, hek⟩
        obtain ⟨a, _, ha⟩ := hins e he
        refine ⟨a, ha.trans hek, (find_found_iff _ _).mpr ⟨e.2, ?_⟩⟩
        rw [ha]; exact he
    rw [hset, Set.ncard_coe_Finset, List.toFinset_card_of_nodup hk]
    simp [permissionMap.addrs]
  · intro h
    have ha := run_addr perms cs h
    have hmap : (permissionMap.addrs (run perms cs)).map addr2IPFingerprint
        = (run perms cs).m.permMap.map Prod.fst := by
      simp only [permissionMap.addrs, List.map_map]
      apply List.map_congr_left
      intro e he
      exact (ha e he).2
    rw [hmap]; exact hk

/-- Instance of `one_permission_per_fingerprint`. -/
theorem one_permission_per_fingerprint_witness :
    oneFingerprintPerPermission
        [Call.insert peerA 1, Call.insert peerB 2, Call.insert peerA2 3] = true
    ∧ ((permissionMap.addrs (run zeroHeap
        [Call.insert peerA 1, Call.insert peerB 2, Call.insert peerA2 3])).map
          addr2IPFingerprint).Nodup :=
  ⟨by decide,
   (one_permission_per_fingerprint zeroHeap
      [Call.insert peerA 1, Call.insert peerB 2, Call.insert peerA2 3]).2.2 (by decide)⟩


/-! ## Further properties of single calls -/

theorem find_delete_other (σ : Store) (a b : Addr)
    (h : addr2IPFingerprint b ≠ addr2IPFingerprint a) :
    permissionMap.find (permissionMap.delete σ a) b = permissionMap.find σ b := by
  simp [permissionMap.find, permissionMap.delete, mapGet_mapDelete_ne _ h]

theorem mapDelete_idem (l : List (String × PermRef)) (k : String) :
    mapDelete (mapDelete l k) k = mapDelete l k := by
  simp [mapDelete, List.filter_filter]

theorem mapDelete_of_mapGet_none {l : List (String × PermRef)} {k : String}
    (h : mapGet l k = none) : mapDelete l k = l := by
  induction l with
  | nil => rfl
  | cons e rest ih =>
    obtain ⟨k1, v⟩ := e
    rw [mapGet_cons] at h
    by_cases h1 : k1 = k
    · rw [if_pos h1] at h
      exact absurd h (by simp)
    · rw [if_neg h1] at h
      rw [mapDelete_cons, if_neg h1, ih h]

theorem find_not_found_iff (σ : Store) (a : Addr) :
    (permissionMap.find σ a).2 = false ↔ mapGet σ.m.permMap (addr2IPFingerprint a) = none := by
  unfold permissionMap.find
  cases mapGet σ.m.permMap (addr2IPFingerprint a) <;> simp

theorem insert_state (σ : Store) (a : Addr) (p q : PermRef) :
    (permissionMap.insert σ a p).2.state q = σ.state q := by
  simp only [permissionMap.insert, Store.state, permission.state]
  by_cases h : q = p
  · subst h
    rw [Function.update_same]
  · rw [Function.update_noteq h]

theorem insert_setState_comm (σ : Store) (a : Addr) (p q : PermRef) (t : permState) :
    (permissionMap.insert (σ.setState q t) a p).2
      = (permissionMap.insert σ a p).2.setState q t := by
  simp only [permissionMap.insert, Store.setState, permission.setState, Store.mk.injEq,
    and_true]
  funext x
  by_cases hxp : x = p
  · subst hxp
    by_cases hxq : x = q
    · subst hxq
      simp only [Function.update_same]
    · simp only [Function.update_same, Function.update_noteq hxq]
  · by_cases hxq : x = q
    · subst hxq
      simp only [Function.update_same, Function.update_noteq hxp]
    · simp only [Function.update_noteq hxp, Function.update_noteq hxq]

/-- C11: when a Permitted permission `p1` is stored for the IP of `a` and `p2`
is Idle, after `insert(a, p2)` the permission found for `a` is `p2` instead of
`p1`, in state Idle, while `p1` is still Permitted; `insert` changes the state
of no permission, and does not read any: it commutes with every state write. -/
theorem insert_does_not_reconcile_state (σ : Store) (a : Addr) (p1 p2 : PermRef)
    (h1 : permissionMap.find σ a = (some p1, true))
    (hs1 : σ.state p1 = permStatePermitted) (hs2 : σ.state p2 = permStateIdle) :
    permissionMap.find (permissionMap.insert σ a p2).2 a = (some p2, true)
    ∧ permissionMap.find (permissionMap.insert σ a p2).2 a ≠ permissionMap.find σ a
    ∧ (permissionMap.insert σ a p2).2.state p2 = permStateIdle
    ∧ (permissionMap.insert σ a p2).2.state p1 = permStatePermitted
    ∧ (∀ q : PermRef, (permissionMap.insert σ a p2).2.state q = σ.state q)
    ∧ (∀ (q : PermRef) (t : permState),
        (permissionMap.insert (σ.setState q t) a p2).2
          = (permissionMap.insert σ a p2).2.setState q t) := by
  refine ⟨find_insert_same σ a a p2 rfl, ?_, ?_, ?_, insert_state σ a p2,
    insert_setState_comm σ a p2⟩
  · rw [find_insert_same σ a a p2 rfl, h1]
    intro h
    have hp : p2 = p1 := by simpa using h
    rw [hp, hs1] at hs2
    exact absurd hs2 (by decide)
  · rw [insert_state, hs2]
  · rw [insert_state, hs1]

/-- Instance of `insert_does_not_reconcile_state`: permission 1 is Permitted
for `10.0.0.1`, the Idle permission 2 replaces it. -/
theorem insert_does_not_reconcile_state_witness :
    permissionMap.find (sampleStore.setState 1 permStatePermitted) peerA = (some 1, true)
    ∧ (sampleStore.setState 1 permStatePermitted).state 1 = permStatePermitted
    ∧ (sampleStore.setState 1 permStatePermitted).state 2 = permStateIdle
    ∧ permissionMap.find
        (permissionMap.insert (sampleStore.setState 1 permStatePermitted) peerA2 2).2 peerA2
        = (some 2, true)
    ∧ (permissionMap.insert (sampleStore.setState 1 permStatePermitted) peerA2 2).2.state 2
        = permStateIdle :=
  ⟨by decide, by decide, by decide,
   (insert_does_not_reconcile_state (sampleStore.setState 1 permStatePermitted) peerA2 1 2
      (by decide) (by decide) (by decide)).1,
   (insert_does_not_reconcile_state (sampleStore.setState 1 permStatePermitted) peerA2 1 2
      (by decide) (by decide) (by decide)).2.2.1⟩

/-- C16: `insert(a, p)` and `delete(a)` leave the result of `find(b)` unchanged
for every address `b` whose fingerprint differs from that of `a`. -/
theorem insert_delete_frame (σ : Store) (a b : Addr) (p : PermRef)
    (h : addr2IPFingerprint a ≠ addr2IPFingerprint b) :
    permissionMap.find (permissionMap.insert σ a p).2 b = permissionMap.find σ b
    ∧ permissionMap.find (permissionMap.delete σ a) b = permissionMap.find σ b :=
  ⟨find_insert_other σ a b p (Ne.symm h), find_delete_other σ a b (Ne.symm h)⟩

/-- Instance of `insert_delete_frame`: calls for `10.0.0.2` do not touch the
entry of `10.0.0.1`. -/
theorem insert_delete_frame_witness :
    addr2IPFingerprint peerB ≠ addr2IPFingerprint peerA
    ∧ permissionMap.find sampleStore peerA = (some 1, true)
    ∧ permissionMap.find (permissionMap.insert sampleStore peerB 2).2 peerA
        = permissionMap.find sampleStore peerA
    ∧ permissionMap.find (permissionMap.delete sampleStore peerB) peerA
        = permissionMap.find sampleStore peerA :=
  ⟨by decide, by decide, insert_delete_frame sampleStore peerB peerA 2 (by decide)⟩


/-- C17: when the same permission object `p` is inserted on a new map under
`a` and then under `b`, two addresses with different IPs (or, more generally,
different fingerprints), `find` returns `p` for both, the `addr` field of `p`
is `b`, and `addrs()` is `b` twice and does not contain `a`. -/
theorem shared_permission_keeps_last_addr (perms : PermRef → permission) (a b : Addr)
    (p : PermRef)
    (hd : a.differentIP b = true ∨ addr2IPFingerprint a ≠ addr2IPFingerprint b) :
    permissionMap.find (run perms [Call.insert a p, Call.insert b p]) a = (some p, true)
    ∧ permissionMap.find (run perms [Call.insert a p, Call.insert b p]) b = (some p, true)
    ∧ ((run perms [Call.insert a p, Call.insert b p]).perms p).addr = b
    ∧ permissionMap.addrs (run perms [Call.insert a p, Call.insert b p]) = [b, b]
    ∧ a ∉ permissionMap.addrs (run perms [Call.insert a p, Call.insert b p]) := by
  have hab : addr2IPFingerprint a ≠ addr2IPFingerprint b :=
    hd.elim fingerprint_ne_of_differentIP id
  have hne : a ≠ b := fun h => hab (congrArg addr2IPFingerprint h)
  have hrun : run perms [Call.insert a p, Call.insert b p]
      = (permissionMap.insert (permissionMap.insert
          { perms := perms, m := newPermissionMap } a p).2 b p).2 := rfl
  have haddrs : permissionMap.addrs (run perms [Call.insert a p, Call.insert b p]) = [b, b] := by
    simp [hrun, permissionMap.addrs, permissionMap.insert, newPermissionMap, mapSet,
      mapDelete, hab]
  refine ⟨?_, ?_, ?_, haddrs, ?_⟩
  · rw [hrun, find_insert_other _ b a p hab]
    exact find_insert_same _ a a p rfl
  · rw [hrun]
    exact find_insert_same _ b b p rfl
  · simp [hrun, permissionMap.insert]
  · rw [haddrs]
    simp [hne]

/-- Instance of `shared_permission_keeps_last_addr`: `10.0.0.1:5000` then
`10.0.0.2:7000` with permission 1. -/
theorem shared_permission_keeps_last_addr_witness :
    peerA.differentIP peerB = true
    ∧ permissionMap.find (run zeroHeap [Call.insert peerA 1, Call.insert peerB 1]) peerA
        = (some 1, true)
    ∧ permissionMap.find (run zeroHeap [Call.insert peerA 1, Call.insert peerB 1]) peerB
        = (some 1, true)
    ∧ ((run zeroHeap [Call.insert peerA 1, Call.insert peerB 1]).perms 1).addr = peerB
    ∧ permissionMap.addrs (run zeroHeap [Call.insert peerA 1, Call.insert peerB 1])
        = [peerB, peerB]
    ∧ peerA ∉ permissionMap.addrs (run zeroHeap [Call.insert peerA 1, Call.insert peerB 1]) :=
  ⟨by decide, shared_permission_keeps_last_addr zeroHeap peerA peerB 1 (Or.inl (by decide))⟩

theorem fingerprint_of_not_udp_tcp {a : Addr} (hu : ∀ u : UDPAddr, a ≠ Addr.udp u)
    (ht : ∀ t : TCPAddr, a ≠ Addr.tcp t) : addr2IPFingerprint a = "" := by
  cases a with
  | nil => rfl
  | udp u => exact absurd rfl (hu u)
  | tcp t => exact absurd rfl (ht t)
  | other n s => rfl

/-- C18: an address that is neither a `*net.UDPAddr` nor a `*net.TCPAddr` has
the empty string as fingerprint, and after `insert(a, p)` with such an `a`,
`find(b)` returns `p`, found, for every `b` that is neither UDP nor TCP. -/
theorem non_udp_tcp_addresses_share_one_entry (σ : Store) (a b : Addr) (p : PermRef)
    (hau : ∀ u : UDPAddr, a ≠ Addr.udp u) (hat : ∀ t : TCPAddr, a ≠ Addr.tcp t)
    (hbu : ∀ u : UDPAddr, b ≠ Addr.udp u) (hbt : ∀ t : TCPAddr, b ≠ Addr.tcp t) :
    addr2IPFingerprint a = ""
    ∧ addr2IPFingerprint b = ""
    ∧ permissionMap.find (permissionMap.insert σ a p).2 b = (some p, true) := by
  have ha := fingerprint_of_not_udp_tcp hau hat
  have hb := fingerprint_of_not_udp_tcp hbu hbt
  exact ⟨ha, hb, find_insert_same σ a b p (hb.trans ha.symm)⟩

/-- Instance of `non_udp_tcp_addresses_share_one_entry`: an IP address
`1.1.1.1` of network `ip` and a Unix socket path. -/
theorem non_udp_tcp_addresses_share_one_entry_witness :
    addr2IPFingerprint (Addr.other "ip" "1.1.1.1") = ""
    ∧ addr2IPFingerprint (Addr.other "unix" "/tmp/peer") = ""
    ∧ permissionMap.find
        (permissionMap.insert sampleStore (Addr.other "ip" "1.1.1.1") 5).2
        (Addr.other "unix" "/tmp/peer") = (some 5, true) :=
  non_udp_tcp_addresses_share_one_entry sampleStore (Addr.other "ip" "1.1.1.1")
    (Addr.other "unix" "/tmp/peer") 5
    (fun _ h => Addr.noConfusion h) (fun _ h => Addr.noConfusion h)
    (fun _ h => Addr.noConfusion h) (fun _ h => Addr.noConfusion h)

/-- C19: `delete(a)` twice leaves the same store as `delete(a)` once; and when
`find(a)` reports not-found, `delete(a)` leaves the store as it is, so every
`find` result and `addrs()` are unchanged. -/
theorem delete_idempotent (σ : Store) (a : Addr) :
    permissionMap.delete (permissionMap.delete σ a) a = permissionMap.delete σ a
    ∧ ((permissionMap.find σ a).2 = false →
        permissionMap.delete σ a = σ
        ∧ (∀ b : Addr,
            permissionMap.find (permissionMap.delete σ a) b = permissionMap.find σ b)
        ∧ permissionMap.addrs (permissionMap.delete σ a) = permissionMap.addrs σ) := by
  constructor
  · simp [permissionMap.delete, mapDelete_idem]
  · intro h
    have hg := (find_not_found_iff σ a).mp h
    have hd : permissionMap.delete σ a = σ := by
      simp only [permissionMap.delete, mapDelete_of_mapGet_none hg]
    rw [hd]
    exact ⟨rfl, fun _ => rfl, rfl⟩

/-- Instance of `delete_idempotent`: `10.0.0.2` is not tracked in the sample
store. -/
theorem delete_idempotent_witness :
    (permissionMap.find sampleStore peerB).2 = false
    ∧ permissionMap.delete sampleStore peerB = sampleStore
    ∧ (∀ b : Addr, permissionMap.find (permissionMap.delete sampleStore peerB) b
        = permissionMap.find sampleStore b)
    ∧ permissionMap.addrs (permissionMap.delete sampleStore peerB)
        = permissionMap.addrs sampleStore :=
  ⟨by decide, (delete_idempotent sampleStore peerB).2 (by decide)⟩

/-- C20: on a map returned by `newPermissionMap()`, `find` reports not-found
(nil pointer, flag false) for every address and `addrs()` is empty. -/
theorem new_map_is_empty (perms : PermRef → permission) (a : Addr) :
    permissionMap.find { perms := perms, m := newPermissionMap } a = (none, false)
    ∧ permissionMap.addrs { perms := perms, m := newPermissionMap } = [] :=
  ⟨rfl, rfl⟩


/-! ## The request layer -/

theorem generateID_fresh {tm : TransactionManager} {random : List TransactionID}
    {id : TransactionID} (h : generateID tm random = some id) : (tm.find id).2 = false := by
  have h1 := List.find?_some h
  simpa using h1

theorem find_false_iff (tm : TransactionManager) (id : TransactionID) :
    (tm.find id).2 = false ↔ ∀ t ∈ tm.trs, t.id ≠ id := by
  unfold TransactionManager.find
  cases hf : tm.trs.find? (fun t => decide (t.id = id)) with
  | none =>
    simp only [true_iff]
    intro t ht
    have := List.find?_eq_none.mp hf t ht
    simpa using this
  | some t =>
    simp only [Bool.true_eq_false, false_iff]
    intro hall
    have h1 := List.find?_some hf
    have h2 := List.mem_of_find?_eq_some hf
    exact hall t h2 (by simpa using h1)

theorem remove_register_fresh (tm : TransactionManager) (id : TransactionID)
    (t : Transaction) (ht : t.id = id) (h : (tm.find id).2 = false) :
    TransactionManager.remove { trs := t :: tm.trs } id = tm := by
  have hall := (find_false_iff tm id).mp h
  unfold TransactionManager.remove
  have hf : (t :: tm.trs).filter (fun t => decide (t.id ≠ id)) = tm.trs := by
    rw [List.filter_cons_of_neg (by simp [ht])]
    apply List.filter_eq_self.mpr
    intro x hx
    simpa using hall x hx
  simp only [hf]

/-- A blocking request that does not end in `Cancelled` leaves the transaction
map as it found it. -/
theorem sendRequestTo_trMap (tm : TransactionManager) (rto : Nat) (req : Request)
    (net : Network)
    (h : (sendRequestTo tm rto req net).result ≠ Except.error ErrorKind.Cancelled) :
    (sendRequestTo tm rto req net).trMap = tm := by
  unfold sendRequestTo at h ⊢
  cases hg : generateID tm net.random with
  | none => rfl
  | some id =>
    have hfresh := generateID_fresh hg
    simp only [hg, TransactionManager.register, hfresh] at h ⊢
    rcases hw : awaitTransaction rto net.responseAt net.closedAt with ⟨ev, d⟩
    rw [hw] at h
    cases ev with
    | response r => exact remove_register_fresh tm id _ rfl hfresh
    | rtoElapsed => exact remove_register_fresh tm id _ rfl hfresh
    | clientClosed => exact absurd rfl h

theorem binding_result_ok {c : Client} {dest : Addr} {net : Network} {a : Addr}
    (h : (c.SendBindingRequestTo dest net).result = Except.ok a) :
    ∃ r, (sendRequestTo c.trMap c.rto
      { method := Method.Binding, dest := dest, peer := Addr.nil, nonce := c.nonce }
      net).result = Except.ok r := by
  simp only [Client.SendBindingRequestTo] at h
  split at h
  · exact absurd h (by simp)
  · rename_i resp hr
    exact ⟨resp, hr⟩

theorem binding_result_error {c : Client} {dest : Addr} {net : Network} {e : ErrorKind}
    (h : (c.SendBindingRequestTo dest net).result = Except.error e)
    (he : e ≠ ErrorKind.ProtocolError) :
    (sendRequestTo c.trMap c.rto
      { method := Method.Binding, dest := dest, peer := Addr.nil, nonce := c.nonce }
      net).result = Except.error e := by
  simp only [Client.SendBindingRequestTo] at h
  split at h
  · rename_i e2 hr
    rw [hr, Except.error.inj h]
  · split at h
    · exact absurd h (by simp)
    · simp only [Except.error.injEq] at h
      exact absurd h.symm he

/-- C12: a blocking request that completes with a response or times out
leaves the size of the transaction map as it was; so does a Binding request
that returns an address or times out; and after a successful
`SendBindingRequest` on a new client the size is 0. -/
theorem no_transaction_leak (tm : TransactionManager) (rto : Nat) (req : Request)
    (net : Network) (c : Client) (dest stun turn : Addr) (rto0 : Nat) (nonce : Nonce) :
    (((∃ r, (sendRequestTo tm rto req net).result = Except.ok r)
        ∨ (sendRequestTo tm rto req net).result = Except.error ErrorKind.Timeout) →
      (sendRequestTo tm rto req net).trMap.size = tm.size)
    ∧ (((∃ a, (c.SendBindingRequestTo dest net).result = Except.ok a)
        ∨ (c.SendBindingRequestTo dest net).result = Except.error ErrorKind.Timeout) →
      (c.SendBindingRequestTo dest net).client.trMap.size = c.trMap.size)
    ∧ ((∃ a, ((NewClient stun turn rto0 nonce).SendBindingRequest net).result = Except.ok a) →
      ((NewClient stun turn rto0 nonce).SendBindingRequest net).client.trMap.size = 0) := by
  refine ⟨?_, ?_, ?_⟩
  · intro h
    rw [sendRequestTo_trMap]
    rcases h with ⟨r, hr⟩ | hr <;> rw [hr] <;> simp
  · intro h
    show (sendRequestTo c.trMap c.rto _ net).trMap.size = c.trMap.size
    rw [sendRequestTo_trMap]
    rcases h with ⟨a, ha⟩ | ht
    · obtain ⟨r, hr⟩ := binding_result_ok ha
      rw [hr]
      simp
    · rw [binding_result_error ht (by decide)]
      simp
  · rintro ⟨a, ha⟩
    show (sendRequestTo (NewClient stun turn rto0 nonce).trMap _ _ net).trMap.size = 0
    rw [sendRequestTo_trMap]
    · rfl
    · obtain ⟨r, hr⟩ := binding_result_ok ha
      rw [hr]
      simp

/-- Instance of `no_transaction_leak`: a Binding request answered after 3
ticks, and one never answered, on a new client. -/
theorem no_transaction_leak_witness :
    (sampleClient.SendBindingRequest bindingNetwork).result = Except.ok peerA
    ∧ (sampleClient.SendBindingRequest bindingNetwork).client.trMap.size = 0
    ∧ (sampleClient.SendBindingRequestTo peerB silentNetwork).result
        = Except.error ErrorKind.Timeout
    ∧ (sampleClient.SendBindingRequestTo peerB silentNetwork).client.trMap.size
        = sampleClient.trMap.size :=
  ⟨rfl,
   (no_transaction_leak sampleClient.trMap 10
      { method := Method.Binding, dest := serverAddr, peer := Addr.nil, nonce := "n0" }
      bindingNetwork sampleClient peerB serverAddr serverAddr 10 "n0").2.2 ⟨peerA, rfl⟩,
   rfl,
   (no_transaction_leak sampleClient.trMap 10
      { method := Method.Binding, dest := serverAddr, peer := Addr.nil, nonce := "n0" }
      silentNetwork sampleClient peerB serverAddr serverAddr 10 "n0").2.1 (Or.inr rfl)⟩


theorem awaitTransaction_no_response (rto : Nat) (closedAt : Option Nat) :
    ((awaitTransaction rto none closedAt).1 = WaitEvent.rtoElapsed
      ∨ (awaitTransaction rto none closedAt).1 = WaitEvent.clientClosed)
    ∧ (awaitTransaction rto none closedAt).2 ≤ rto := by
  cases closedAt with
  | none => exact ⟨Or.inl rfl, Nat.le_refl _⟩
  | some tc =>
    simp only [awaitTransaction]
    split
    · rename_i h
      exact ⟨Or.inr rfl, Nat.le_of_lt h⟩
    · exact ⟨Or.inl rfl, Nat.le_refl _⟩

theorem sendRequestTo_no_response (tm : TransactionManager) (rto : Nat) (req : Request)
    (net : Network) (h : net.responseAt = none) :
    (∃ e, (sendRequestTo tm rto req net).result = Except.error e)
    ∧ (sendRequestTo tm rto req net).waited ≤ rto := by
  unfold sendRequestTo
  cases hg : generateID tm net.random with
  | none => exact ⟨⟨_, rfl⟩, Nat.zero_le _⟩
  | some id =>
    have hfresh := generateID_fresh hg
    simp only [TransactionManager.register, hfresh, h]
    obtain ⟨hev, hle⟩ := awaitTransaction_no_response rto net.closedAt
    rcases hw : awaitTransaction rto none net.closedAt with ⟨ev, d⟩
    rw [hw] at hev hle
    simp only at hev hle
    rcases hev with rfl | rfl
    · exact ⟨⟨_, rfl⟩, hle⟩
    · exact ⟨⟨_, rfl⟩, hle⟩

theorem sendRequestTo_timeout (tm : TransactionManager) (rto : Nat) (req : Request)
    (net : Network) (h : net.responseAt = none) (hc : net.closedAt = none)
    (hid : (generateID tm net.random).isSome = true) :
    (sendRequestTo tm rto req net).result = Except.error ErrorKind.Timeout
    ∧ (sendRequestTo tm rto req net).waited = rto := by
  unfold sendRequestTo
  cases hg : generateID tm net.random with
  | none => rw [hg] at hid; exact absurd hid (by simp)
  | some id =>
    have hfresh := generateID_fresh hg
    simp only [TransactionManager.register, hfresh, h, hc, awaitTransaction]
    exact ⟨rfl, rfl⟩

/-- C14: a `SendBindingRequestTo` to which no response arrives returns an
error after at most `rto` ticks; when moreover the client is not closed
meanwhile (and an unused transaction identifier was drawn), the error is
`Timeout`, returned exactly when the `rto` has elapsed, and the transaction
is removed. -/
theorem no_response_times_out (c : Client) (dest : Addr) (net : Network)
    (h : net.responseAt = none) :
    (∃ e, (c.SendBindingRequestTo dest net).result = Except.error e)
    ∧ (c.SendBindingRequestTo dest net).waited ≤ c.rto
    ∧ (net.closedAt = none → (generateID c.trMap net.random).isSome = true →
        (c.SendBindingRequestTo dest net).result = Except.error ErrorKind.Timeout
        ∧ (c.SendBindingRequestTo dest net).waited = c.rto
        ∧ (c.SendBindingRequestTo dest net).client.trMap.size = c.trMap.size) := by
  obtain ⟨⟨e, he⟩, hle⟩ := sendRequestTo_no_response c.trMap c.rto
    { method := Method.Binding, dest := dest, peer := Addr.nil, nonce := c.nonce } net h
  refine ⟨⟨e, ?_⟩, hle, ?_⟩
  · simp only [Client.SendBindingRequestTo, he]
  · intro hc hid
    obtain ⟨ht, hw⟩ := sendRequestTo_timeout c.trMap c.rto
      { method := Method.Binding, dest := dest, peer := Addr.nil, nonce := c.nonce } net h hc hid
    refine ⟨?_, hw, ?_⟩
    · simp only [Client.SendBindingRequestTo, ht]
    · show (sendRequestTo c.trMap c.rto _ net).trMap.size = c.trMap.size
      rw [sendRequestTo_trMap]
      rw [ht]
      simp

/-- Instance of `no_response_times_out`: a Binding request with an RTO of 10
ticks that is never answered. -/
theorem no_response_times_out_witness :
    silentNetwork.responseAt = none ∧ silentNetwork.closedAt = none
    ∧ (generateID sampleClient.trMap silentNetwork.random).isSome = true
    ∧ (sampleClient.SendBindingRequestTo peerB silentNetwork).result
        = Except.error ErrorKind.Timeout
    ∧ (sampleClient.SendBindingRequestTo peerB silentNetwork).waited = 10
    ∧ (sampleClient.SendBindingRequestTo peerB silentNetwork).client.trMap.size = 0 :=
  ⟨rfl, rfl, rfl,
   (no_response_times_out sampleClient peerB silentNetwork rfl).2.2 rfl rfl⟩


theorem permitted_after_grant {c : Client} {r : Addr} (σ : Store) (peer : Addr)
    (fresh : PermRef) :
    Allocation.permitted
      { client := c, relayedAddr := r,
        store :=
          match permissionMap.find σ peer with
          | (some p, true) => σ.setState p permStatePermitted
          | _ =>
            (permissionMap.insert
              { σ with perms := Function.update σ.perms fresh permission.zero }
              peer fresh).2.setState fresh permStatePermitted } peer = true := by
  unfold Allocation.permitted
  simp only
  cases hf : mapGet σ.m.permMap (addr2IPFingerprint peer) with
  | some p =>
    have h1 : permissionMap.find σ peer = (some p, true) := by
      simp [permissionMap.find, hf]
    have h2 : permissionMap.find (σ.setState p permStatePermitted) peer = (some p, true) := h1
    simp only [h1, h2]
    simp [Store.setState, Store.state, permission.setState, permission.state]
  | none =>
    have h1 : permissionMap.find σ peer = (none, false) := by
      simp [permissionMap.find, hf]
    simp only [h1]
    have h2 : permissionMap.find
        ((permissionMap.insert
          { σ with perms := Function.update σ.perms fresh permission.zero }
          peer fresh).2.setState fresh permStatePermitted) peer = (some fresh, true) :=
      find_insert_same _ peer peer fresh rfl
    simp only [h2]
    simp [Store.setState, Store.state, permission.setState, permission.state]

/-- C13: when the permission of the peer is absent or not Permitted and the
first CreatePermission request of `WriteTo` is answered with a Stale Nonce
error offering the nonce `n1`, exactly two CreatePermission requests are sent,
the second being the first with the nonce `n1`; if the second is answered with
success, `WriteTo` returns success and the peer is Permitted; if the second is
again answered with Stale Nonce, `WriteTo` returns the error
`StaleCredentials`. -/
theorem stale_nonce_retried_once (a : Allocation) (data : List (Fin 256)) (peer : Addr)
    (fresh : PermRef) (net1 net2 : Network) (r1 : Response) (n1 : Nonce)
    (hperm : a.permitted peer = false)
    (h1 : (sendRequestTo a.client.trMap a.client.rto
        (createPermissionRequest a.client peer) net1).result = Except.ok r1)
    (hstale : r1.errorCode = some CodeStaleNonce) (hn : r1.nonce = some n1) :
    (a.WriteTo data peer fresh net1 net2).sent
      = [createPermissionRequest a.client peer,
         { createPermissionRequest a.client peer with nonce := n1 }]
    ∧ (∀ r2 : Response,
        (sendRequestTo
          (sendRequestTo a.client.trMap a.client.rto
            (createPermissionRequest a.client peer) net1).trMap a.client.rto
          { createPermissionRequest a.client peer with nonce := n1 } net2).result
          = Except.ok r2 →
        (r2.errorCode = none →
          (a.WriteTo data peer fresh net1 net2).result = Except.ok data.length
          ∧ (a.WriteTo data peer fresh net1 net2).alloc.permitted peer = true
          ∧ (a.WriteTo data peer fresh net1 net2).alloc.client.nonce = n1)
        ∧ (r2.errorCode = some CodeStaleNonce →
          (a.WriteTo data peer fresh net1 net2).result
            = Except.error ErrorKind.StaleCredentials)) := by
  have hcp : createPermission a.client peer net1 net2
      = { result :=
            match (sendRequestTo
              (sendRequestTo a.client.trMap a.client.rto
                (createPermissionRequest a.client peer) net1).trMap a.client.rto
              { createPermissionRequest a.client peer with nonce := n1 } net2).result with
            | Except.error e => Except.error e
            | Except.ok resp2 =>
              match resp2.errorCode with
              | none => Except.ok ()
              | some code2 =>
                if code2 = CodeStaleNonce then Except.error ErrorKind.StaleCredentials
                else Except.error ErrorKind.ProtocolError
          sent := [createPermissionRequest a.client peer,
            { createPermissionRequest a.client peer with nonce := n1 }]
          client :=
            { a.client with
              nonce := n1
              trMap := (sendRequestTo
                (sendRequestTo a.client.trMap a.client.rto
                  (createPermissionRequest a.client peer) net1).trMap a.client.rto
                { createPermissionRequest a.client peer with nonce := n1 } net2).trMap } } := by
    simp only [createPermission, h1, hstale, hn, Option.getD_some, if_true]
    rfl
  have hsent : (a.WriteTo data peer fresh net1 net2).sent
      = [createPermissionRequest a.client peer,
         { createPermissionRequest a.client peer with nonce := n1 }] := by
    simp only [Allocation.WriteTo, hperm, hcp, Bool.false_eq_true, if_false]
    split <;> rfl
  refine ⟨hsent, ?_⟩
  intro r2 h2
  constructor
  · intro hok
    simp only [Allocation.WriteTo, hperm, hcp, h2, hok, Bool.false_eq_true, if_false]
    refine ⟨trivial, ?_, trivial⟩
    exact permitted_after_grant a.store peer fresh
  · intro hst
    simp only [Allocation.WriteTo, hperm, hcp, h2, hst, Bool.false_eq_true, if_false,
      if_true]

/-- Instance of `stale_nonce_retried_once`: the first request is answered
with Stale Nonce and the nonce `n1`, the second with success. -/
theorem stale_nonce_retried_once_witness :
    sampleAllocation.permitted peerB = false
    ∧ (sampleAllocation.WriteTo [0] peerB 4 staleNetwork successNetwork).sent.map
        (fun q => q.nonce) = ["n0", "n1"]
    ∧ (sampleAllocation.WriteTo [0] peerB 4 staleNetwork successNetwork).result = Except.ok 1
    ∧ (sampleAllocation.WriteTo [0] peerB 4 staleNetwork staleNetwork).result
        = Except.error ErrorKind.StaleCredentials :=
  ⟨rfl,
   by rw [(stale_nonce_retried_once sampleAllocation [0] peerB 4 staleNetwork successNetwork
      { errorCode := some 438, nonce := some "n1", mappedAddr := none } "n1"
      rfl rfl rfl rfl).1]; rfl,
   ((stale_nonce_retried_once sampleAllocation [0] peerB 4 staleNetwork successNetwork
      { errorCode := some 438, nonce := some "n1", mappedAddr := none } "n1"
      rfl rfl rfl rfl).2 { errorCode := none, nonce := none, mappedAddr := none } rfl).1 rfl
      |>.1,
   ((stale_nonce_retried_once sampleAllocation [0] peerB 4 staleNetwork staleNetwork
      { errorCode := some 438, nonce := some "n1", mappedAddr := none } "n1"
      rfl rfl rfl rfl).2 { errorCode := some 438, nonce := some "n1", mappedAddr := none }
      rfl).2 rfl⟩

end Turn
